import Mathlib

/-!
Verification of the stackstorm-netbox pack against its specification.

The development shallowly embeds the two Python scripts of the repository:

* `bin/generate.py` — the action generator: it walks the `paths` of a
  NetBox OpenAPI document, classifies each `(path, verb)` pair, and renders
  one YAML action definition per classified action.
* `actions/lib/action.py` and `actions/run.py` — the runtime HTTP wrapper.

Python strings are modelled by Lean `String` together with hand-rolled,
structurally recursive re-implementations of the Python string methods the
scripts use (`replace`, `split`, `strip`, `join`, `endswith`, `in`,
`upper`, `lower`, `capitalize`, `title`).  These mirror Python semantics
(all-occurrence replacement, `split` keeping empty groups, ASCII casing)
and reduce inside the kernel, so concrete runs can be settled by `decide`.

Python `dict`s are modelled as association lists whose iteration order is
insertion order and whose update keeps the position of an existing key,
exactly like CPython dicts.  An uncaught Python exception (for example a
`KeyError` on a missing key) is modelled by `Except.error`.
-/

deriving instance DecidableEq for Except

/-! ## Python string primitives -/

/-- Python `s.replace(pat, rep)`: replace every non-overlapping occurrence of
`pat`, scanning left to right.  Structural fuel recursion so that the kernel
can evaluate it; `pyReplace` supplies enough fuel. -/
def replaceFuel (pat rep : List Char) : Nat → List Char → List Char
  | 0, s => s
  | _ + 1, [] => []
  | n + 1, c :: rest =>
    if !pat.isEmpty && pat.isPrefixOf (c :: rest) then
      rep ++ replaceFuel pat rep n ((c :: rest).drop pat.length)
    else
      c :: replaceFuel pat rep n rest

/-- Python `s.replace(pat, rep)` on `String`. -/
def pyReplace (s pat rep : String) : String :=
  ⟨replaceFuel pat.data rep.data s.data.length s.data⟩

/-- Split a character list on a separator character, keeping empty groups,
like Python `s.split(sep)` for a one-character separator. -/
def splitChar (sep : Char) : List Char → List (List Char)
  | [] => [[]]
  | c :: rest =>
    let r := splitChar sep rest
    if c = sep then [] :: r
    else match r with
      | [] => [[c]]
      | g :: gs => (c :: g) :: gs

/-- Python `s.split("/")`. -/
def pySplitSlash (s : String) : List String :=
  (splitChar '/' s.data).map (fun l => ⟨l⟩)

/-- Python `s.endswith(pat)`. -/
def pyEndsWith (s pat : String) : Bool := pat.data.isSuffixOf s.data

/-- Occurrence test for a pattern inside a character list. -/
def containsL (pat : List Char) : List Char → Bool
  | [] => pat.isEmpty
  | c :: rest => pat.isPrefixOf (c :: rest) || containsL pat rest

/-- Python `pat in s` (substring containment). -/
def pyContains (s pat : String) : Bool := containsL pat.data s.data

/-- ASCII uppercasing of one character, as Python does for ASCII input. -/
def pyUpperChar (c : Char) : Char :=
  if 'a' ≤ c ∧ c ≤ 'z' then Char.ofNat (c.toNat - 32) else c

/-- ASCII lowercasing of one character. -/
def pyLowerChar (c : Char) : Char :=
  if 'A' ≤ c ∧ c ≤ 'Z' then Char.ofNat (c.toNat + 32) else c

/-- Python `s.upper()` (ASCII). -/
def pyUpper (s : String) : String := ⟨s.data.map pyUpperChar⟩

/-- Python `s.capitalize()`: first character uppercased, the rest lowercased. -/
def pyCapitalize (s : String) : String :=
  match s.data with
  | [] => ⟨[]⟩
  | c :: rest => ⟨pyUpperChar c :: rest.map pyLowerChar⟩

/-- Worker for `pyTitle`: uppercase a letter that follows a non-letter,
lowercase a letter that follows a letter. -/
def titleGo (prevAlpha : Bool) : List Char → List Char
  | [] => []
  | c :: rest =>
    (if c.isAlpha then (if prevAlpha then pyLowerChar c else pyUpperChar c) else c)
      :: titleGo c.isAlpha rest

/-- Python `s.title()` for ASCII input. -/
def pyTitle (s : String) : String := ⟨titleGo false s.data⟩

/-- Python `sep.join(parts)`. -/
def joinL (sep : List Char) : List (List Char) → List Char
  | [] => []
  | [g] => g
  | g :: gs => g ++ sep ++ joinL sep gs

/-- Python `sep.join(parts)` on `String`. -/
def pyJoin (sep : String) (parts : List String) : String :=
  ⟨joinL sep.data (parts.map String.data)⟩

/-- Python `s.strip("/")`: drop slashes from both ends. -/
def pyStripSlash (s : String) : String :=
  ⟨((s.data.dropWhile (fun c => c = '/')).reverse.dropWhile (fun c => c = '/')).reverse⟩

/-- Decimal digits of a natural number (fuel recursion so it reduces). -/
def natDigits : Nat → Nat → List Char
  | 0, _ => []
  | _ + 1, n =>
    if n < 10 then [Char.ofNat (48 + n)]
    else natDigits n (n / 10) ++ [Char.ofNat (48 + n % 10)]

/-- Python `str(n)` for an integer. -/
def intRepr : Int → String
  | .ofNat n => ⟨natDigits (n + 1) n⟩
  | .negSucc n => "-" ++ ⟨natDigits (n + 2) (n + 1)⟩

/-! ## Values passed as keyword arguments / JSON data at runtime -/

/-- Values appearing as action keyword arguments, query parameters and JSON
bodies at runtime: Python `None`, booleans, integers, strings and arrays of
strings (the two array-typed action parameters, `id__in` and `tags`, hold
strings/IDs that Python joins with `",".join`). -/
inductive KwVal where
  | vnone
  | vbool (b : Bool)
  | vint (n : Int)
  | vstr (s : String)
  | varr (xs : List String)
  deriving DecidableEq, Repr

/-- Python truthiness of a `KwVal`. -/
def KwVal.truthy : KwVal → Bool
  | .vnone => false
  | .vbool b => b
  | .vint n => decide (n ≠ 0)
  | .vstr s => !s.data.isEmpty
  | .varr xs => !xs.isEmpty

/-- Test for Python `None`. -/
def KwVal.isNone : KwVal → Bool
  | .vnone => true
  | _ => false

/-- Python `str(v)` of a runtime value. -/
def pyStrVal : KwVal → String
  | .vstr s => s
  | .vint n => intRepr n
  | .vbool true => "True"
  | .vbool false => "False"
  | .vnone => "None"
  | .varr xs => "[" ++ pyJoin ", " (xs.map (fun x => "\x27" ++ x ++ "\x27")) ++ "]"

/-- Python `",".join(v)`: joins a list of strings; joining a string joins its
characters; any other operand raises `TypeError`. -/
def pyJoinComma : KwVal → Except String KwVal
  | .varr xs => .ok (.vstr (pyJoin "," xs))
  | .vstr s => .ok (.vstr (pyJoin "," (s.data.map (fun c => ⟨[c]⟩))))
  | _ => .error "TypeError: can only join an iterable of strings"

/-! ## Association-list dictionaries -/

/-- First-match lookup in an association list (Python `dict` access). -/
def alookup {α : Type} (k : String) : List (String × α) → Option α
  | [] => none
  | p :: rest => if p.1 = k then some p.2 else alookup k rest

/-- Replace the value bound to `k` (Python `d[k] = v` for an existing key):
the key keeps its position. -/
def setKey {α : Type} (k : String) (v : α) (l : List (String × α)) : List (String × α) :=
  l.map (fun p => if p.1 = k then (k, v) else p)

/-- Python `d.pop(k)` / dict-comprehension exclusion of a key. -/
def removeKey {α : Type} (k : String) (l : List (String × α)) : List (String × α) :=
  l.filter (fun p => decide (p.1 ≠ k))

/-- The key list of an association list, in order. -/
def keysOf {α : Type} (l : List (String × α)) : List String := l.map Prod.fst

/-- Python `d.get(k)` truthiness test (`if kwargs.get(k):`). -/
def getTruthy (k : String) (kw : List (String × KwVal)) : Bool :=
  match alookup k kw with
  | some v => v.truthy
  | none => false

/-! ## Runtime HTTP wrapper: `actions/lib/action.py` -/

/-- The pack configuration consumed by `NetboxBaseAction` (hostname, token,
TLS flags). -/
structure NbConfig where
  use_https : Bool
  hostname : String
  api_token : String
  ssl_verify : Bool
  deriving DecidableEq, Repr

/-- How the keyword arguments travel with the request: as query parameters
(`requests.get(..., params=kwargs)`), as a JSON body
(`requests.post/put/patch(..., json=kwargs)`), or not at all
(`requests.delete` sends no kwargs). -/
inductive Payload where
  | query (params : List (String × KwVal))
  | jsonBody (body : List (String × KwVal))
  | nobody
  deriving DecidableEq, Repr

/-- The single outbound HTTP request built by `make_request`. -/
structure NbRequest where
  url : String
  http_action : String
  headers : List (String × String)
  verify : Bool
  payload : Payload
  deriving DecidableEq, Repr

namespace NetboxBaseAction

/-- The id-join / tags-join / None-stripping parameter transformations of
`make_request` (`actions/lib/action.py` lines 31-43), in source order:
a truthy `id__in` is joined with commas, then a truthy `tags`, then for any
verb other than `get` the pairs whose value is `None` are dropped. -/
def applyJoin (k : String) (kwargs : List (String × KwVal)) :
    Except String (List (String × KwVal)) :=
  if getTruthy k kwargs then
    match alookup k kwargs with
    | some v => do
      let j ← pyJoinComma v
      pure (setKey k j kwargs)
    | none => pure kwargs
  else pure kwargs

/-- All parameter transformations applied to `kwargs` before the request is
issued. -/
def transformKwargs (http_action : String) (kwargs : List (String × KwVal)) :
    Except String (List (String × KwVal)) := do
  let k1 ← applyJoin "id__in" kwargs
  let k2 ← applyJoin "tags" k1
  pure (if http_action = "get" then k2 else k2.filter (fun p => !p.2.isNone))

/-- `NetboxBaseAction.make_request`: builds the URL from the configured
scheme, hostname, the literal "/api" and the endpoint URI, attaches the
token header, transforms the kwargs and issues one request with the given
verb.  An unknown verb leaves `r` unbound (`NameError`); `delete` logs
`kwargs["id"]`, raising `KeyError` when absent. -/
def make_request (config : NbConfig) (endpoint_uri http_action : String)
    (kwargs : List (String × KwVal)) : Except String NbRequest := do
  let scheme := if config.use_https then "https://" else "http://"
  let url := scheme ++ config.hostname ++ "/api" ++ endpoint_uri
  let headers := [("Authorization", "Token " ++ config.api_token),
                  ("Accept", "application/json"),
                  ("Content-Type", "application/json")]
  let kw ← transformKwargs http_action kwargs
  if http_action = "get" then
    pure ⟨url, "get", headers, config.ssl_verify, .query kw⟩
  else if http_action = "post" then
    pure ⟨url, "post", headers, config.ssl_verify, .jsonBody kw⟩
  else if http_action = "put" then
    pure ⟨url, "put", headers, config.ssl_verify, .jsonBody kw⟩
  else if http_action = "patch" then
    pure ⟨url, "patch", headers, config.ssl_verify, .jsonBody kw⟩
  else if http_action = "delete" then
    match alookup "id" kw with
    | some _ => pure ⟨url, "delete", headers, config.ssl_verify, .nobody⟩
    | none => .error "KeyError: id"
  else
    .error "NameError: r referenced before assignment"

end NetboxBaseAction

/-! ## Runtime wrapper: `actions/run.py` -/

/-- The HTTP response seen by the wrapper: `result.ok` and the parsed body
`result.json()`. -/
structure NbResponse where
  ok : Bool
  body : KwVal
  deriving DecidableEq, Repr

/-- The `return_result` slot of `NetboxHTTPAction.run`: it starts as `None`,
and is set either to the parsed response body or to a message string. -/
inductive RawResult where
  | noneVal
  | jsonVal (v : KwVal)
  | msg (s : String)
  deriving DecidableEq, Repr

/-- A write into the st2 key-value store (`client.keys.update`). -/
structure KeystoreWrite where
  key_name : String
  value : KwVal
  ttl : KwVal
  deriving DecidableEq, Repr

/-- Everything observable about one invocation of `NetboxHTTPAction.run`:
the outbound requests it issued, the key-value-store writes it performed,
and the `(status, {"raw": result})` pair it returned. -/
structure RunOutcome where
  requests : List NbRequest
  keystoreWrites : List KeystoreWrite
  status : Bool
  raw : RawResult
  deriving DecidableEq, Repr

namespace NetboxHTTPAction

/-- The detail-route adjustment at the top of `NetboxHTTPAction.run`
(`actions/run.py` lines 20-26): a GET carrying a truthy `id` on a
detail-route-eligible action moves the id into the endpoint URI and pops it
from the kwargs. -/
def detailAdjust (endpoint_uri http_verb : String) (get_detail_route_eligible : Bool)
    (kwargs : List (String × KwVal)) : String × List (String × KwVal) :=
  if http_verb = "get" ∧ getTruthy "id" kwargs ∧ get_detail_route_eligible then
    match alookup "id" kwargs with
    | some v => (endpoint_uri ++ pyStrVal v ++ "/", removeKey "id" kwargs)
    | none => (endpoint_uri, kwargs)
  else (endpoint_uri, kwargs)

/-- The rest of `NetboxHTTPAction.run` (lines 28-59) after the detail-route
adjustment: issue exactly one request and post-process the response.  A
successful GET either stores the body in the keystore (when
`save_in_key_store` is the literal `True`; a falsy or absent
`save_in_key_store_key_name` is an error result, and a missing
`save_in_key_store_ttl` raises `KeyError`) or leaves the result `None`;
every other case returns the parsed body. -/
def runCore (config : NbConfig) (http_verb : String)
    (st : String × List (String × KwVal)) (resp : NbResponse) :
    Except String RunOutcome := do
  let req ← NetboxBaseAction.make_request config st.1 http_verb st.2
  let return_status := resp.ok
  if return_status = true ∧ http_verb = "get" then
    if alookup "save_in_key_store" st.2 = some (.vbool true) then
      let key_name := alookup "save_in_key_store_key_name" st.2
      if (match key_name with | some v => v.truthy | none => false) = false then
        pure ⟨[req], [], false,
          .msg "save_in_key_store_key_name MUST be used with save_in_key_store!"⟩
      else
        match alookup "save_in_key_store_ttl" st.2 with
        | none => .error "KeyError: save_in_key_store_ttl"
        | some ttl =>
          let kn := pyStrVal (match key_name with | some v => v | none => .vnone)
          pure ⟨[req], [⟨kn, resp.body, ttl⟩], true,
            .msg ("Result stored in st2 key " ++ kn)⟩
    else
      pure ⟨[req], [], return_status, .noneVal⟩
  else
    pure ⟨[req], [], return_status, .jsonVal resp.body⟩

/-- `NetboxHTTPAction.run` (`actions/run.py`): the detail-route adjustment
followed by the single request and response post-processing.  The response
to the single request is supplied as `resp`. -/
def run (config : NbConfig) (endpoint_uri http_verb : String)
    (get_detail_route_eligible : Bool) (kwargs : List (String × KwVal))
    (resp : NbResponse) : Except String RunOutcome :=
  runCore config http_verb
    (detailAdjust endpoint_uri http_verb get_detail_route_eligible kwargs) resp

end NetboxHTTPAction

/-! ## OpenAPI document model (`bin/generate.py` input) -/

/-- The data of one property inside an OpenAPI definition, with the fields
`parse_properties` inspects: the `readOnly` flag, a truthy `$ref` (stored as
the full reference string), whether the property's own `properties` carry a
truthy `label` and `value` (a choice field), and the `type` and `title`
keys (absent keys are `none`; `title` may also be present but empty, which
Python treats as falsy). -/
structure NbPropData where
  readOnly : Bool := false
  ref : Option String := none
  hasLabelValue : Bool := false
  type : Option String := none
  title : Option String := none
  deriving DecidableEq, Repr

/-- One entry of the document's `definitions`: its `title`, `required` list
and `properties`, each `none`/defaulted when the key is absent. -/
structure NbDefinition where
  title : Option String := none
  required : Option (List String) := none
  properties : List (String × NbPropData) := []
  deriving DecidableEq, Repr

/-- One action parameter (and likewise one raw OpenAPI operation parameter,
which carries the same `name`/`type`/`description`/`required` keys):
`type` is `none` when the dict has no `type` key. -/
structure NbParam where
  name : String
  type : Option String := none
  description : String := ""
  required : Bool := false
  deriving DecidableEq, Repr

/-- One entry of an operation's `parameters` list: `schemaRef` is `some r`
when the parameter carries a `schema` whose `$ref` is `r` (the body
parameter of write operations), and the plain fields otherwise. -/
structure NbOpParam where
  schemaRef : Option String := none
  param : NbParam := {name := ""}
  deriving DecidableEq, Repr

/-- The per-verb operation object: `description`, `operationId` and
`parameters` (an absent key is `none` and raises `KeyError` on access). -/
structure NbVerbData where
  description : Option String := none
  operationId : Option String := none
  parameters : List NbOpParam := []
  deriving DecidableEq, Repr

/-- The OpenAPI document: `paths` (a dict of path → dict of verb → operation,
in insertion order), `definitions`, and `info.version`. -/
structure NbApiSpec where
  paths : List (String × List (String × NbVerbData))
  definitions : List (String × NbDefinition) := []
  version : String := ""
  deriving DecidableEq, Repr

/-- The in-memory action record built by `run`: description, parameter list,
endpoint URI template, HTTP verb and the detail-route eligibility flag. -/
structure NbAction where
  description : String
  parameters : List NbParam
  endpoint_uri : String
  verb : String
  get_detail_route_eligible : Bool
  deriving DecidableEq, Repr

namespace Generate

/-- Truthiness of an optional string (`data.get(key, False)` followed by an
`if`/`or`): absent or empty means falsy. -/
def optTruthyStr : Option String → Bool
  | some s => !s.data.isEmpty
  | none => false

/-- Python `ref.split("/")[-1]`: the last component of a `$ref` string. -/
def refTail (s : String) : String := (pySplitSlash s).getLastD s

/-- `sanitize_parameters` body for one parameter (`generate.py` lines
40-53): `*_id` parameters become integers, `id__in` and `tags` become
arrays with fixed descriptions, and any `number` type becomes `integer`.
Reading a still-missing `type` key raises `KeyError`. -/
def sanitize_one (p : NbParam) : Except String NbParam :=
  let p1 :=
    if pyEndsWith p.name "_id" then { p with type := some "integer" }
    else if p.name = "id__in" then
      { p with type := some "array", description := "Array of IDs" }
    else if p.name = "tags" then
      { p with type := some "array", description := "Array of tag strings" }
    else p
  match p1.type with
  | none => .error "KeyError: type"
  | some t => .ok (if t = "number" then { p1 with type := some "integer" } else p1)

/-- `sanitize_parameters` over a whole parameter list. -/
def sanitize_parameters : List NbParam → Except String (List NbParam)
  | [] => pure []
  | p :: rest => do
    let q ← sanitize_one p
    let qs ← sanitize_parameters rest
    pure (q :: qs)

/-- The type and description chosen for one property by `parse_properties`
(`generate.py` lines 80-96): a truthy `$ref` gives an integer described by
the referenced definition's title; a choice field (truthy `label` and
`value` sub-properties) gives an integer with the capitalized name;
everything else copies `type` and takes a truthy `title` or the
capitalized name. -/
def propCore (spec : NbApiSpec) (name : String) (data : NbPropData) :
    Except String (String × String) :=
  if optTruthyStr data.ref then
    match data.ref with
    | some r =>
      match alookup (refTail r) spec.definitions with
      | some d =>
        match d.title with
        | some t => pure ("integer", t)
        | none => Except.error "KeyError: title"
      | none => Except.error ("KeyError: " ++ refTail r)
    | none => Except.error "unreachable: truthy ref is present"
  else if data.hasLabelValue then
    pure ("integer", pyCapitalize (pyReplace name "_" " "))
  else
    match data.type with
    | some t =>
      pure (t,
        match data.title with
        | some ti => if !ti.data.isEmpty then ti else pyCapitalize (pyReplace name "_" " ")
        | none => pyCapitalize (pyReplace name "_" " "))
    | none => Except.error "KeyError: type"

/-- The test `if ignore and name in ignore` of `parse_properties`: the
ignore list must be truthy (present and non-empty) and contain the name. -/
def ignoreHit (ignore : Option (List String)) (name : String) : Bool :=
  match ignore with
  | some l => !l.isEmpty && l.contains name
  | none => false

/-- The loop of `parse_properties` (`generate.py` lines 68-103): skip
read-only properties and explicitly ignored names (`ignore` must be truthy,
that is present and non-empty); otherwise take `propCore`, with `required`
given by membership in the required list. -/
def parsePropsLoop (spec : NbApiSpec) (required : List String)
    (ignore : Option (List String)) :
    List (String × NbPropData) → Except String (List NbParam)
  | [] => pure []
  | (name, data) :: rest =>
    if data.readOnly then parsePropsLoop spec required ignore rest
    else if ignoreHit ignore name then
      parsePropsLoop spec required ignore rest
    else do
      let core ← propCore spec name data
      let rest' ← parsePropsLoop spec required ignore rest
      pure (⟨name, some core.1, core.2, required.contains name⟩ :: rest')

/-- `parse_properties` (`generate.py` lines 56-105): the loop above followed
by `sanitize_parameters`. -/
def parse_properties (props : List (String × NbPropData)) (required : List String)
    (spec : NbApiSpec) (ignore : Option (List String) := none) :
    Except String (List NbParam) := do
  let params ← parsePropsLoop spec required ignore props
  sanitize_parameters params

/-- The schema-driven parameter block of `run` (`generate.py` lines
132-140): when the first operation parameter carries a truthy `schema`,
resolve its `$ref` in `definitions` and parse its properties; `patch` drops
the required list entirely, any other verb reads `schema['required']`
(raising `KeyError` when absent). -/
def requiredFor (verb : String) (schema : NbDefinition) : Except String (List String) :=
  if verb = "patch" then pure []
  else match schema.required with
       | some r => pure r
       | none => .error "KeyError: required"

/-- The schema-driven parameter block of `run` (`generate.py` lines
132-140), resolving the first operation parameter's schema reference. -/
def schemaDerivedParams (spec : NbApiSpec) (verb : String)
    (opParams : List NbOpParam) : Except String (List NbParam) :=
  match opParams with
  | [] => pure []
  | p0 :: _ =>
    if p0.schemaRef.isSome then
      match p0.schemaRef with
      | some ref =>
        match alookup (refTail ref) spec.definitions with
        | none => .error ("KeyError: " ++ refTail ref)
        | some schema =>
          requiredFor verb schema >>= fun required =>
            parse_properties schema.properties required spec none
      | none => .error "unreachable: isSome ref"
    else pure []

/-- `path_parts` (`generate.py` line 112): drop every `/{id}`, strip outer
slashes, split on `/`, and replace dashes by underscores in each part. -/
def pathParts (path : String) : List String :=
  (pySplitSlash (pyStripSlash (pyReplace path "/\x7bid\x7d" ""))).map
    (fun x => pyReplace x "-" "_")

/-- The endpoint URI template: `{id}` becomes `{{ id }}` (line 121). -/
def endpointUri (path : String) : String :=
  pyReplace path "\x7bid\x7d" "\x7b\x7b id \x7d\x7d"

/-- `action_name` (line 119): the verb and the dot-joined path parts. -/
def actionName (verb path : String) : String :=
  verb ++ "." ++ pyJoin "." (pathParts path)

/-- The fallback description `"{} {}".format(verb.upper(),
path_parts[-1].replace("_", " ").title())` (lines 123-125). -/
def defaultDescription (verb path : String) : String :=
  pyUpper verb ++ " " ++ pyTitle (pyReplace ((pathParts path).getLastD "") "_" " ")

/-- The action description: `verb_data['description'].replace("\n", "") or`
the fallback; a missing `description` key raises `KeyError`. -/
def baseDescription (verb path : String) (vd : NbVerbData) : Except String String :=
  match vd.description with
  | none => .error "KeyError: description"
  | some d =>
    let d' := pyReplace d "\n" ""
    pure (if d'.data.isEmpty then defaultDescription verb path else d')

/-- The action record as built before the classification chain (lines
119-140): description, schema-derived parameters, endpoint URI, verb, and
the flag initialized to `True`. -/
def buildBase (spec : NbApiSpec) (path verb : String) (vd : NbVerbData) :
    Except String NbAction := do
  let desc ← baseDescription verb path vd
  let ps ← schemaDerivedParams spec verb vd.parameters
  pure ⟨desc, ps, endpointUri path, verb, true⟩

/-- The required `id` parameter appended for `delete`/`put`/`patch`
(lines 227-232). -/
def idParamFor (verb : String) : NbParam :=
  ⟨"id", some "integer", "ID of the object to " ++ verb ++ ".", true⟩

/-- The required `id` parameter appended for sub-`{id}` GET routes
(lines 217-222). -/
def idParamObj : NbParam :=
  ⟨"id", some "integer", "ID of the object.", true⟩

/-- The required `id` parameter of the two `available_*` special cases. -/
def idParamRoute : NbParam :=
  ⟨"id", some "integer", "ID of the Prefix.", true⟩

/-- The extra required parameter of `post.ipam.prefixes.available_prefixes`. -/
def prefixLengthParam : NbParam :=
  ⟨"prefix_length", some "integer", "Prefix CIDR length to create.", true⟩

/-- The extra required parameter of `post.secrets.get_session_key`. -/
def privateKeyParam : NbParam :=
  ⟨"private_key", some "string", "User\x27s private key.", true⟩

/-- The optional `id` parameter merged into a list action for its deferred
detail GET (lines 245-253). -/
def deferIdParam : NbParam :=
  ⟨"id", some "integer",
    "If provided, will convert to using the detail route. I.e., <endpoint_uri>/<id>/, meaning a max of one entity will be returned and all other entity query parameters will be ignored.",
    false⟩

/-- One `(path, verb)` pair of the document together with its operation. -/
structure Endpoint where
  path : String
  verb : String
  vd : NbVerbData
  deriving DecidableEq, Repr

/-- What the classification chain decides for one endpoint: record an
action under its name, defer it as a detail GET, or skip it with the
"no defined logic" warning. -/
inductive Classified where
  | insertA (name : String) (act : NbAction)
  | deferA (name : String)
  | skipA (name : String)
  deriving DecidableEq, Repr

/-- The `post.ipam.prefixes.available_ips` special case (`generate.py`
lines 145-160): parameters come from the `IPAddress` definition with
`address` ignored, plus a required Prefix `id`; not detail-route eligible. -/
def availableIPsAction (spec : NbApiSpec) (act : NbAction) : Except String NbAction :=
  match alookup "IPAddress" spec.definitions with
  | none => .error "KeyError: IPAddress"
  | some schema =>
    match schema.required with
    | none => .error "KeyError: required"
    | some req =>
      (parse_properties schema.properties req spec (some ["address"])).map fun ps =>
        { act with
          parameters := ps ++ [idParamRoute],
          get_detail_route_eligible := false,
          description := "Create the next available IP Address in a given Prefix." }

/-- The `post.ipam.prefixes.available_prefixes` special case (lines
162-183): parameters come from the `Prefix` definition with `prefix`
ignored, plus a required Prefix `id` and a required `prefix_length`. -/
def availablePrefixesAction (spec : NbApiSpec) (act : NbAction) : Except String NbAction :=
  match alookup "Prefix" spec.definitions with
  | none => .error "KeyError: Prefix"
  | some schema =>
    match schema.required with
    | none => .error "KeyError: required"
    | some req =>
      (parse_properties schema.properties req spec (some ["prefix"])).map fun ps =>
        { act with
          parameters := ps ++ [idParamRoute, prefixLengthParam],
          get_detail_route_eligible := false,
          description := "Create the next available Prefix in a given Prefix." }

/-- The `post.secrets.get_session_key` special case (lines 190-201). -/
def sessionKeyAction (act : NbAction) : NbAction :=
  { act with
    parameters := act.parameters ++ [privateKeyParam],
    get_detail_route_eligible := false,
    description := "Retrieve a temporary session key to use for encrypting and decrypting secrets via the API." }

/-- The GET branches of the classification chain (lines 207-224): list
operations take the sanitized raw query parameters, detail routes are
deferred, sub-`\x7bid\x7d` routes get a required `id` and lose detail-route
eligibility; reading `operationId` of a `get` raises `KeyError` when it is
absent. -/
def getClassify (ep : Endpoint) (name uri : String)
    (act : NbAction) : Except String Classified :=
  match ep.vd.operationId with
  | none => .error "KeyError: operationId"
  | some oid =>
    if pyEndsWith oid "_list" then
      (sanitize_parameters (ep.vd.parameters.map (fun p => p.param))).map
        (fun qs => .insertA name { act with parameters := qs })
    else if pyEndsWith uri "/\x7b\x7b id \x7d\x7d/" then
      pure (.deferA name)
    else if pyContains uri "\x7b\x7b id \x7d\x7d" ∧ ¬ pyEndsWith uri "\x7b\x7b id \x7d\x7d" then
      pure (.insertA name { act with
        parameters := act.parameters ++ [idParamObj],
        get_detail_route_eligible := false })
    else
      pure (.skipA name)

/-- The classification chain of `run` (`generate.py` lines 145-239): the
four hard-coded special cases, then the GET branches, then
`delete`/`put`/`patch`, plain `post`, and the warning fall-through.  The
base action (description and schema parameters) is built first, as in the
source. -/
def classifyEndpoint (spec : NbApiSpec) (ep : Endpoint) : Except String Classified := do
  let name := actionName ep.verb ep.path
  let uri := endpointUri ep.path
  let act ← buildBase spec ep.path ep.verb ep.vd
  if ep.verb = "post" ∧ name = "post.ipam.prefixes.available_ips" then
    (availableIPsAction spec act).map (.insertA name)
  else if ep.verb = "post" ∧ name = "post.ipam.prefixes.available_prefixes" then
    (availablePrefixesAction spec act).map (.insertA name)
  else if ep.verb = "get" ∧ name = "get.secrets.generate_rsa_key_pair" then
    pure (.insertA name { act with
      description := "This endpoint can be used to generate a new RSA key pair." })
  else if ep.verb = "post" ∧ name = "post.secrets.get_session_key" then
    pure (.insertA name (sessionKeyAction act))
  else if ep.verb = "get" then
    getClassify ep name uri act
  else if ep.verb = "delete" ∨ ep.verb = "put" ∨ ep.verb = "patch" then
    pure (.insertA name { act with parameters := act.parameters ++ [idParamFor ep.verb] })
  else if ep.verb = "post" ∧ ¬ pyContains uri "\x7b\x7b id \x7d\x7d" then
    pure (.insertA name act)
  else
    pure (.skipA name)

/-- The warning printed for an endpoint no branch handles (line 239). -/
def skipWarning (name : String) : String :=
  "Unable to process endpoint " ++ name ++ ", no defined logic"

/-- The warning printed for a deferred detail GET whose list action is
missing (line 255). -/
def missingListWarning (name : String) : String :=
  "Unable to find list action for deferred GET endpoint " ++ name

/-- The `actions` dict, the deferred detail-GET names, and the warnings
printed so far. -/
structure GenState where
  actions : List (String × NbAction)
  deferred : List String
  warnings : List String
  deriving DecidableEq, Repr

/-- Python `actions[name] = action`: replace in place when the key exists,
append otherwise. -/
def insertAct (acts : List (String × NbAction)) (k : String) (v : NbAction) :
    List (String × NbAction) :=
  if acts.any (fun p => decide (p.1 = k)) then
    acts.map (fun p => if p.1 = k then (k, v) else p)
  else acts ++ [(k, v)]

/-- Apply one classification decision to the generator state. -/
def applyClassified (st : GenState) : Classified → GenState
  | .insertA n a => { st with actions := insertAct st.actions n a }
  | .deferA n => { st with deferred := st.deferred ++ [n] }
  | .skipA n => { st with warnings := st.warnings ++ [skipWarning n] }

/-- Process one `(path, verb)` pair of the main loop. -/
def stepEndpoint (spec : NbApiSpec) (st : GenState) (ep : Endpoint) :
    Except String GenState := do
  let c ← classifyEndpoint spec ep
  pure (applyClassified st c)

/-- All `(path, verb)` pairs of the document in iteration order, the
pseudo-verb `parameters` excluded (lines 111-115). -/
def endpointList (spec : NbApiSpec) : List Endpoint :=
  spec.paths.flatMap (fun pv =>
    (pv.2.filter (fun vv => decide (vv.1 ≠ "parameters"))).map
      (fun vv => ⟨pv.1, vv.1, vv.2⟩))

/-- The number of `(path, verb)` endpoints of the document. -/
def endpointCount (spec : NbApiSpec) : Nat := (endpointList spec).length

/-- The deferred detail-GET pass (lines 242-255): merge the optional `id`
parameter into the list action of the same name, or warn when it is
missing. -/
def runDeferred (acts : List (String × NbAction)) (ws : List String) :
    List String → List (String × NbAction) × List String
  | [] => (acts, ws)
  | n :: rest =>
    match alookup n acts with
    | some a =>
      runDeferred (insertAct acts n { a with parameters := a.parameters ++ [deferIdParam] }) ws rest
    | none => runDeferred acts (ws ++ [missingListWarning n]) rest

/-- The final actions dict and warnings of one generator run. -/
structure RunResult where
  actions : List (String × NbAction)
  warnings : List String
  deriving DecidableEq, Repr

/-- `run` (`generate.py` lines 108-255) restricted to a chosen endpoint
list: fold the classification over the endpoints, then process the deferred
detail GETs. -/
def runOn (spec : NbApiSpec) (eps : List Endpoint) : Except String RunResult := do
  let st ← eps.foldlM (stepEndpoint spec) ⟨[], [], []⟩
  let r := runDeferred st.actions st.warnings st.deferred
  pure ⟨r.1, r.2⟩

/-- `run` over the whole document. -/
def run (spec : NbApiSpec) : Except String RunResult :=
  runOn spec (endpointList spec)

end Generate

/-! ## File output phase of the generator (`generate.py` lines 257-284) -/

/-- The variables supplied to the Jinja template for one action
(`generate.py` lines 269-278): the generation date, the document's
`info.version`, and the action's name, parameters, description, endpoint
URI, verb and detail-route flag. -/
structure TemplateVars where
  generation_date : Nat
  version : String
  action_name : String
  parameters : List NbParam
  description : String
  endpoint_uri : String
  verb : String
  get_detail_route_eligible : Bool
  deriving DecidableEq, Repr

/-- Modelled from the spec: the file `action-template.jinja2` is part of the
repository but not under `src/`, so the rendering itself is opaque here; the
spec says the renderer "fills a single template per classified action", so a
rendered file is modelled as the full record of variables handed to
`template.render` — two renderings are equal exactly when every supplied
variable is. -/
def renderTemplate (vars : TemplateVars) : TemplateVars := vars

/-- One filesystem operation of the output phase: removing a file of the
actions directory, or writing a rendered action definition. -/
inductive FsOp where
  | deleteF (name : String)
  | writeF (name : String) (content : TemplateVars)
  deriving DecidableEq, Repr

/-- Whether an operation is a write. -/
def FsOp.isWriteF : FsOp → Bool
  | .writeF _ _ => true
  | _ => false

/-- Whether an operation is a delete. -/
def FsOp.isDeleteF : FsOp → Bool
  | .deleteF _ => true
  | _ => false

/-- The filesystem operations of one generator run over a directory whose
current listing is `listing`: first every file ending in ".yaml" is removed
(lines 257-263), then one `<name>.yaml` file is written per entry of the
actions dict, rendered from the template variables (lines 266-282). -/
def fileOps (listing : List String) (date : Nat) (version : String)
    (acts : List (String × NbAction)) : List FsOp :=
  (listing.filter (fun f => pyEndsWith f ".yaml")).map FsOp.deleteF
    ++ acts.map (fun p =>
      FsOp.writeF (p.1 ++ ".yaml")
        (renderTemplate ⟨date, version, p.1, p.2.parameters, p.2.description,
          p.2.endpoint_uri, p.2.verb, p.2.get_detail_route_eligible⟩))

/-- The names of the files written by a list of filesystem operations. -/
def writeNames (ops : List FsOp) : List String :=
  ops.filterMap (fun op => match op with | .writeF f _ => some f | _ => none)

/-- The names of the files deleted by a list of filesystem operations. -/
def deleteNames (ops : List FsOp) : List String :=
  ops.filterMap (fun op => match op with | .deleteF f => some f | _ => none)

/-! ## Fetching the document and the overall generator run -/

/-- The outcome of the attempt to obtain the OpenAPI document: either the
parsed document, or the error raised while fetching/reading/parsing it. -/
inductive FetchOutcome where
  | fetched (spec : NbApiSpec)
  | failed (err : String)
  deriving DecidableEq, Repr

/-- `get_spec_via_http` (`generate.py` lines 23-37): an exception while
opening the URL is caught, "Failed to get the API spec! <e>" is printed and
the script exits with status 1. -/
def get_spec_via_http : FetchOutcome → Except (String × Nat) NbApiSpec
  | .fetched s => .ok s
  | .failed e => .error ("Failed to get the API spec! " ++ e, 1)

/-- `get_spec_on_disk` (`generate.py` lines 11-15): an exception while
opening or parsing the file is not caught, so the interpreter prints the
exception and exits with status 1. -/
def get_spec_on_disk : FetchOutcome → Except (String × Nat) NbApiSpec
  | .fetched s => .ok s
  | .failed e => .error (e, 1)

/-- `get_spec` (`generate.py` lines 17-21). -/
def get_spec (file_ : Bool) (fo : FetchOutcome) : Except (String × Nat) NbApiSpec :=
  if file_ then get_spec_on_disk fo else get_spec_via_http fo

/-- The whole generator entry point (`generate.py` lines 287-317): fetch the
document, classify the endpoints and produce the filesystem operations of
the output phase; a runtime exception inside `run` aborts with status 1 and
no filesystem operation. -/
def mainModel (file_ : Bool) (fo : FetchOutcome) (listing : List String)
    (date : Nat) : Except (String × Nat) (List FsOp) := do
  let spec ← get_spec file_ fo
  match Generate.run spec with
  | .ok res => pure (fileOps listing date spec.version res.actions)
  | .error e => .error (e, 1)

/-- The writes actually performed by a (possibly aborted) generator run. -/
def writesOf : Except (String × Nat) (List FsOp) → List FsOp
  | .error _ => []
  | .ok ops => ops.filter FsOp.isWriteF


/-! ## Association-list lemmas -/

theorem alookup_eq_none_iff {α : Type} (k : String) (l : List (String × α)) :
    alookup k l = none ↔ k ∉ keysOf l := by
  induction l with
  | nil => simp [alookup, keysOf]
  | cons p rest ih =>
    rcases p with ⟨a, b⟩
    simp only [alookup, keysOf, List.map_cons, List.mem_cons]
    by_cases h : a = k
    · subst h
      simp
    · rw [if_neg h, ih]
      constructor
      · intro hn hor
        rcases hor with h1 | h2
        · exact h h1.symm
        · exact hn h2
      · intro hn h2
        exact hn (Or.inr h2)

theorem alookup_mem {α : Type} {k : String} {l : List (String × α)} {v : α}
    (h : alookup k l = some v) : (k, v) ∈ l := by
  induction l with
  | nil => simp [alookup] at h
  | cons p rest ih =>
    rcases p with ⟨a, b⟩
    simp only [alookup] at h
    by_cases hak : a = k
    · rw [if_pos hak] at h
      injection h with hbv
      subst hak hbv
      exact List.mem_cons_self _ _
    · rw [if_neg hak] at h
      exact List.mem_cons_of_mem _ (ih h)

theorem mem_keysOf_of_alookup {α : Type} {k : String} {l : List (String × α)} {v : α}
    (h : alookup k l = some v) : k ∈ keysOf l :=
  List.mem_map.mpr ⟨(k, v), alookup_mem h, rfl⟩

theorem keysOf_setKey {α : Type} (k : String) (v : α) (l : List (String × α)) :
    keysOf (setKey k v l) = keysOf l := by
  induction l with
  | nil => rfl
  | cons p rest ih =>
    rcases p with ⟨a, b⟩
    by_cases hak : a = k
    · show ((if a = k then (k, v) else (a, b)).1 :: keysOf (setKey k v rest)) = a :: keysOf rest
      rw [if_pos hak, ih, hak]
    · show ((if a = k then (k, v) else (a, b)).1 :: keysOf (setKey k v rest)) = a :: keysOf rest
      rw [if_neg hak, ih]

theorem alookup_setKey_self {α : Type} (k : String) (v : α) (l : List (String × α)) :
    alookup k (setKey k v l) = (alookup k l).map (fun _ => v) := by
  induction l with
  | nil => rfl
  | cons p rest ih =>
    rcases p with ⟨a, b⟩
    by_cases hak : a = k
    · show alookup k ((if a = k then (k, v) else (a, b)) :: setKey k v rest)
        = ((if a = k then some b else alookup k rest).map (fun _ => v))
      rw [if_pos hak]
      simp [alookup, hak]
    · show alookup k ((if a = k then (k, v) else (a, b)) :: setKey k v rest)
        = ((if a = k then some b else alookup k rest).map (fun _ => v))
      rw [if_neg hak]
      simp only [alookup, if_neg hak]
      exact ih

theorem alookup_setKey_ne {α : Type} {k' k : String} (hne : k' ≠ k) (v : α)
    (l : List (String × α)) : alookup k' (setKey k v l) = alookup k' l := by
  induction l with
  | nil => rfl
  | cons p rest ih =>
    rcases p with ⟨a, b⟩
    show alookup k' ((if a = k then (k, v) else (a, b)) :: setKey k v rest)
      = alookup k' ((a, b) :: rest)
    by_cases hak : a = k
    · rw [if_pos hak]
      have h1 : ¬ ((k, v).1 = k') := fun h => hne h.symm
      have h2 : ¬ (a = k') := fun h => hne (h.symm.trans hak)
      simp only [alookup, if_neg h1, if_neg h2]
      exact ih
    · rw [if_neg hak]
      by_cases hak' : a = k'
      · simp only [alookup, if_pos hak']
      · simp only [alookup, if_neg hak']
        exact ih

theorem alookup_filter_eq_none_of_not_mem {α : Type} {k : String}
    {l : List (String × α)} (q : String × α → Bool) (h : k ∉ keysOf l) :
    alookup k (l.filter q) = none := by
  rw [alookup_eq_none_iff]
  intro hmem
  apply h
  rcases List.mem_map.mp hmem with ⟨p, hp, hpk⟩
  exact List.mem_map.mpr ⟨p, List.mem_of_mem_filter hp, hpk⟩

theorem alookup_filterNone_of_nodup {k : String} {l : List (String × KwVal)}
    (hnd : (keysOf l).Nodup) :
    alookup k (l.filter (fun p => !p.2.isNone)) =
      match alookup k l with
      | some v => if v.isNone then none else some v
      | none => none := by
  induction l with
  | nil => simp [alookup]
  | cons p rest ih =>
    rcases p with ⟨a, b⟩
    have hnd0 := List.nodup_cons.mp (show (a :: keysOf rest).Nodup from hnd)
    have hnd' : (keysOf rest).Nodup := hnd0.2
    have hnotin : a ∉ keysOf rest := hnd0.1
    by_cases hak : a = k
    · subst hak
      by_cases hv : b.isNone
      · simp only [List.filter_cons, hv, Bool.not_true, if_neg (by simp : ¬ (false = true))]
        rw [alookup_filter_eq_none_of_not_mem _ hnotin]
        simp [alookup, hv]
      · simp only [List.filter_cons, hv, Bool.not_false, if_pos rfl]
        simp [alookup, hv]
    · by_cases hv : b.isNone
      · simp only [List.filter_cons, hv, Bool.not_true, if_neg (by simp : ¬ (false = true))]
        rw [ih hnd']
        simp [alookup, hak]
      · simp only [List.filter_cons, hv, Bool.not_false, if_pos rfl]
        simp only [alookup, if_neg hak]
        exact ih hnd'

/-! ## Lemmas about the actions dict -/

namespace Generate

theorem any_key_eq_iff (acts : List (String × NbAction)) (k : String) :
    (acts.any (fun p => decide (p.1 = k)) = true) ↔ k ∈ keysOf acts := by
  simp only [List.any_eq_true, decide_eq_true_eq, keysOf, List.mem_map]

theorem keysOf_replaceKey (acts : List (String × NbAction)) (k : String) (v : NbAction) :
    keysOf (acts.map (fun p => if p.1 = k then (k, v) else p)) = keysOf acts := by
  induction acts with
  | nil => rfl
  | cons p rest ih =>
    rcases p with ⟨a, b⟩
    show ((if a = k then (k, v) else (a, b)).1
        :: keysOf (List.map (fun p => if p.1 = k then (k, v) else p) rest)) = a :: keysOf rest
    by_cases hak : a = k
    · rw [if_pos hak, ih, hak]
    · rw [if_neg hak, ih]

theorem keysOf_insertAct_of_mem {acts : List (String × NbAction)} {k : String}
    (v : NbAction) (h : k ∈ keysOf acts) :
    keysOf (insertAct acts k v) = keysOf acts := by
  unfold insertAct
  rw [if_pos ((any_key_eq_iff acts k).mpr h)]
  exact keysOf_replaceKey acts k v

theorem keysOf_insertAct_of_not_mem {acts : List (String × NbAction)} {k : String}
    (v : NbAction) (h : k ∉ keysOf acts) :
    keysOf (insertAct acts k v) = keysOf acts ++ [k] := by
  unfold insertAct
  rw [if_neg (fun hc => h ((any_key_eq_iff acts k).mp hc))]
  simp [keysOf]

theorem mem_keysOf_insertAct_self (acts : List (String × NbAction)) (k : String)
    (v : NbAction) : k ∈ keysOf (insertAct acts k v) := by
  by_cases h : k ∈ keysOf acts
  · rw [keysOf_insertAct_of_mem v h]
    exact h
  · rw [keysOf_insertAct_of_not_mem v h]
    simp

theorem mem_keysOf_insertAct_of_mem {acts : List (String × NbAction)} {k' : String}
    (k : String) (v : NbAction) (h : k' ∈ keysOf acts) :
    k' ∈ keysOf (insertAct acts k v) := by
  by_cases hk : k ∈ keysOf acts
  · rw [keysOf_insertAct_of_mem v hk]
    exact h
  · rw [keysOf_insertAct_of_not_mem v hk]
    exact List.mem_append_left _ h

theorem nodup_keysOf_insertAct {acts : List (String × NbAction)} (k : String)
    (v : NbAction) (h : (keysOf acts).Nodup) :
    (keysOf (insertAct acts k v)).Nodup := by
  by_cases hk : k ∈ keysOf acts
  · rw [keysOf_insertAct_of_mem v hk]
    exact h
  · rw [keysOf_insertAct_of_not_mem v hk]
    simp [List.nodup_append, h, hk]

theorem mem_insertAct {acts : List (String × NbAction)} {k n : String}
    {v a : NbAction} (h : (n, a) ∈ insertAct acts k v) :
    (n = k ∧ a = v) ∨ (n, a) ∈ acts := by
  unfold insertAct at h
  by_cases hc : acts.any (fun p => decide (p.1 = k)) = true
  · rw [if_pos hc] at h
    rcases List.mem_map.mp h with ⟨p, hp, heq⟩
    by_cases hpk : p.1 = k
    · rw [if_pos hpk] at heq
      left
      exact ⟨(congrArg Prod.fst heq).symm, (congrArg Prod.snd heq).symm⟩
    · rw [if_neg hpk] at heq
      right
      rw [← heq]
      exact hp
  · rw [if_neg hc] at h
    rcases List.mem_append.mp h with h1 | h2
    · right
      exact h1
    · left
      rcases List.mem_singleton.mp h2 with h3
      exact ⟨(congrArg Prod.fst h3), (congrArg Prod.snd h3)⟩

/-! ## foldlM machinery over Except -/

theorem foldlM_except_inv {σ α ε : Type} (f : σ → α → Except ε σ) (P : σ → Prop)
    (hf : ∀ s a s', P s → f s a = .ok s' → P s') :
    ∀ (l : List α) (s s' : σ), P s → l.foldlM f s = .ok s' → P s' := by
  intro l
  induction l with
  | nil =>
    intro s s' hP h
    simp only [List.foldlM_nil] at h
    cases h
    exact hP
  | cons a t ih =>
    intro s s' hP h
    rw [List.foldlM_cons] at h
    cases hfa : f s a with
    | error e =>
      rw [hfa] at h
      simp [Bind.bind, Except.bind] at h
    | ok s1 =>
      rw [hfa] at h
      simp only [Bind.bind, Except.bind] at h
      exact ih s1 s' (hf s a s1 hP hfa) h

theorem foldlM_except_mem {σ α ε : Type} (f : σ → α → Except ε σ) (P : σ → Prop)
    (hf : ∀ s a s', P s → f s a = .ok s' → P s') (x : α)
    (hx : ∀ s s', f s x = .ok s' → P s') :
    ∀ (l : List α) (s s' : σ), x ∈ l → l.foldlM f s = .ok s' → P s' := by
  intro l
  induction l with
  | nil =>
    intro s s' hmem
    simp at hmem
  | cons a t ih =>
    intro s s' hmem h
    rw [List.foldlM_cons] at h
    cases hfa : f s a with
    | error e =>
      rw [hfa] at h
      simp [Bind.bind, Except.bind] at h
    | ok s1 =>
      rw [hfa] at h
      simp only [Bind.bind, Except.bind] at h
      rcases List.mem_cons.mp hmem with rfl | hmem'
      · exact foldlM_except_inv f P hf t s1 s' (hx s s1 hfa) h
      · exact ih s1 s' hmem' h

/-! ## stepEndpoint decomposition -/

theorem stepEndpoint_ok {spec : NbApiSpec} {st : GenState} {ep : Endpoint}
    {st' : GenState} (h : stepEndpoint spec st ep = .ok st') :
    ∃ c, classifyEndpoint spec ep = .ok c ∧ st' = applyClassified st c := by
  unfold stepEndpoint at h
  cases hc : classifyEndpoint spec ep with
  | error e =>
    rw [hc] at h
    simp [Bind.bind, Except.bind] at h
  | ok c =>
    rw [hc] at h
    simp only [Bind.bind, Except.bind, pure, Except.pure] at h
    exact ⟨c, rfl, by cases h; rfl⟩

theorem applyClassified_warnings_mono (st : GenState) (c : Classified) {w : String}
    (h : w ∈ st.warnings) : w ∈ (applyClassified st c).warnings := by
  cases c with
  | insertA n a => exact h
  | deferA n => exact h
  | skipA n => exact List.mem_append_left _ h

theorem applyClassified_keys_mono (st : GenState) (c : Classified) {k : String}
    (h : k ∈ keysOf st.actions) : k ∈ keysOf (applyClassified st c).actions := by
  cases c with
  | insertA n a => exact mem_keysOf_insertAct_of_mem n a h
  | deferA n => exact h
  | skipA n => exact h

theorem applyClassified_nodup (st : GenState) (c : Classified)
    (h : (keysOf st.actions).Nodup) : (keysOf (applyClassified st c).actions).Nodup := by
  cases c with
  | insertA n a => exact nodup_keysOf_insertAct n a h
  | deferA n => exact h
  | skipA n => exact h

end Generate

/-! ## The parameter-type invariant (claim C10) and required-flag lemmas -/

/-- The invariant claimed of every generated parameter: never of type
`number`, `*_id` parameters are integers, and `id__in`/`tags` are arrays. -/
def paramOK (p : NbParam) : Prop :=
  p.type ≠ some "number"
    ∧ (pyEndsWith p.name "_id" = true → p.type = some "integer")
    ∧ ((p.name = "id__in" ∨ p.name = "tags") → p.type = some "array")

instance (p : NbParam) : Decidable (paramOK p) := by
  unfold paramOK
  infer_instance

namespace Generate

theorem sanitize_one_cases (p : NbParam) :
    sanitize_one p =
      if pyEndsWith p.name "_id" then .ok { p with type := some "integer" }
      else if p.name = "id__in" then
        .ok { p with type := some "array", description := "Array of IDs" }
      else if p.name = "tags" then
        .ok { p with type := some "array", description := "Array of tag strings" }
      else
        match p.type with
        | none => .error "KeyError: type"
        | some t => .ok (if t = "number" then { p with type := some "integer" } else p) := by
  have e1 : pyEndsWith "id__in" "_id" = false := by decide
  have e2 : pyEndsWith "tags" "_id" = false := by decide
  unfold sanitize_one
  by_cases h1 : pyEndsWith p.name "_id"
  · simp [h1]
  · by_cases h2 : p.name = "id__in"
    · simp [h1, h2, e1]
    · by_cases h3 : p.name = "tags"
      · simp [h1, h2, h3, e2]
      · simp [h1, h2, h3]

theorem sanitize_one_ok {p q : NbParam} (h : sanitize_one p = .ok q) : paramOK q := by
  rw [sanitize_one_cases] at h
  by_cases h1 : pyEndsWith p.name "_id" = true
  · rw [if_pos h1] at h
    cases h
    refine ⟨by simp, fun _ => rfl, fun hn => ?_⟩
    have hn' : p.name = "id__in" ∨ p.name = "tags" := hn
    rcases hn' with hn' | hn' <;> rw [hn'] at h1
    · exact absurd h1 (by decide)
    · exact absurd h1 (by decide)
  · rw [if_neg h1] at h
    by_cases h2 : p.name = "id__in"
    · rw [if_pos h2] at h
      cases h
      exact ⟨by simp, fun he => absurd he h1, fun _ => rfl⟩
    · rw [if_neg h2] at h
      by_cases h3 : p.name = "tags"
      · rw [if_pos h3] at h
        cases h
        exact ⟨by simp, fun he => absurd he h1, fun _ => rfl⟩
      · rw [if_neg h3] at h
        cases ht : p.type with
        | none =>
          rw [ht] at h
          exact Except.noConfusion h
        | some t =>
          rw [ht] at h
          replace h : Except.ok (if t = "number" then { p with type := some "integer" } else p)
              = Except.ok q := h
          by_cases hn : t = "number"
          · rw [if_pos hn] at h
            cases h
            exact ⟨by simp, fun _ => rfl,
                   fun hn' => absurd (show p.name = "id__in" ∨ p.name = "tags" from hn')
                     (by simp [h2, h3])⟩
          · rw [if_neg hn] at h
            cases h
            refine ⟨?_, fun he => absurd he h1,
                    fun hn' => absurd (show p.name = "id__in" ∨ p.name = "tags" from hn')
                      (by simp [h2, h3])⟩
            rw [ht]
            intro hc
            injection hc with hc
            exact hn hc

theorem sanitize_one_required {p q : NbParam} (h : sanitize_one p = .ok q) :
    q.required = p.required := by
  rw [sanitize_one_cases] at h
  by_cases h1 : pyEndsWith p.name "_id" = true
  · rw [if_pos h1] at h
    cases h
    rfl
  · rw [if_neg h1] at h
    by_cases h2 : p.name = "id__in"
    · rw [if_pos h2] at h
      cases h
      rfl
    · rw [if_neg h2] at h
      by_cases h3 : p.name = "tags"
      · rw [if_pos h3] at h
        cases h
        rfl
      · rw [if_neg h3] at h
        cases ht : p.type with
        | none =>
          rw [ht] at h
          exact Except.noConfusion h
        | some t =>
          rw [ht] at h
          replace h : Except.ok (if t = "number" then { p with type := some "integer" } else p)
              = Except.ok q := h
          by_cases hn : t = "number"
          · rw [if_pos hn] at h
            cases h
            rfl
          · rw [if_neg hn] at h
            cases h
            rfl

theorem sanitize_parameters_ok {ps qs : List NbParam}
    (h : sanitize_parameters ps = .ok qs) : ∀ q ∈ qs, paramOK q := by
  induction ps generalizing qs with
  | nil =>
    unfold sanitize_parameters at h
    cases h
    intro q hq
    cases hq
  | cons p rest ih =>
    unfold sanitize_parameters at h
    cases hq0 : sanitize_one p with
    | error e =>
      rw [hq0] at h
      simp [Bind.bind, Except.bind] at h
    | ok q0 =>
      rw [hq0] at h
      simp only [Bind.bind, Except.bind] at h
      cases hrest : sanitize_parameters rest with
      | error e =>
        rw [hrest] at h
        simp [Except.bind] at h
      | ok qs0 =>
        rw [hrest] at h
        simp only [pure, Except.pure] at h
        cases h
        intro q hq
        rcases List.mem_cons.mp hq with rfl | hq'
        · exact sanitize_one_ok hq0
        · exact ih hrest q hq'

theorem sanitize_parameters_required {ps qs : List NbParam}
    (h : sanitize_parameters ps = .ok qs) (hall : ∀ p ∈ ps, p.required = false) :
    ∀ q ∈ qs, q.required = false := by
  induction ps generalizing qs with
  | nil =>
    unfold sanitize_parameters at h
    cases h
    intro q hq
    cases hq
  | cons p rest ih =>
    unfold sanitize_parameters at h
    cases hq0 : sanitize_one p with
    | error e =>
      rw [hq0] at h
      simp [Bind.bind, Except.bind] at h
    | ok q0 =>
      rw [hq0] at h
      simp only [Bind.bind, Except.bind] at h
      cases hrest : sanitize_parameters rest with
      | error e =>
        rw [hrest] at h
        simp [Except.bind] at h
      | ok qs0 =>
        rw [hrest] at h
        simp only [pure, Except.pure] at h
        cases h
        intro q hq
        rcases List.mem_cons.mp hq with rfl | hq'
        · rw [sanitize_one_required hq0]
          exact hall p (List.mem_cons_self _ _)
        · exact ih hrest (fun r hr => hall r (List.mem_cons_of_mem _ hr)) q hq'

theorem parsePropsLoop_required_empty {spec : NbApiSpec}
    {ignore : Option (List String)} {props : List (String × NbPropData)}
    {ps : List NbParam} (h : parsePropsLoop spec [] ignore props = .ok ps) :
    ∀ p ∈ ps, p.required = false := by
  induction props generalizing ps with
  | nil =>
    unfold parsePropsLoop at h
    cases h
    intro p hp
    cases hp
  | cons pd rest ih =>
    rcases pd with ⟨name, data⟩
    unfold parsePropsLoop at h
    by_cases h1 : data.readOnly
    · rw [if_pos h1] at h
      exact ih h
    · rw [if_neg h1] at h
      by_cases h2 : ignoreHit ignore name = true
      · rw [if_pos h2] at h
        exact ih h
      · rw [if_neg h2] at h
        cases hcore : propCore spec name data with
        | error e =>
          rw [hcore] at h
          simp [Bind.bind, Except.bind] at h
        | ok core =>
          rw [hcore] at h
          simp only [Bind.bind, Except.bind] at h
          cases hrest : parsePropsLoop spec [] ignore rest with
          | error e =>
            rw [hrest] at h
            simp [Except.bind] at h
          | ok rest' =>
            rw [hrest] at h
            simp only [pure, Except.pure] at h
            cases h
            intro p hp
            rcases List.mem_cons.mp hp with rfl | hp'
            · rfl
            · exact ih hrest p hp'

theorem parse_properties_ok {props : List (String × NbPropData)}
    {required : List String} {spec : NbApiSpec} {ignore : Option (List String)}
    {qs : List NbParam} (h : parse_properties props required spec ignore = .ok qs) :
    ∀ q ∈ qs, paramOK q := by
  unfold parse_properties at h
  cases hloop : parsePropsLoop spec required ignore props with
  | error e =>
    rw [hloop] at h
    simp [Bind.bind, Except.bind] at h
  | ok ps =>
    rw [hloop] at h
    simp only [Bind.bind, Except.bind] at h
    exact sanitize_parameters_ok h

theorem parse_properties_required_empty {props : List (String × NbPropData)}
    {spec : NbApiSpec} {ignore : Option (List String)} {qs : List NbParam}
    (h : parse_properties props [] spec ignore = .ok qs) :
    ∀ q ∈ qs, q.required = false := by
  unfold parse_properties at h
  cases hloop : parsePropsLoop spec [] ignore props with
  | error e =>
    rw [hloop] at h
    simp [Bind.bind, Except.bind] at h
  | ok ps =>
    rw [hloop] at h
    simp only [Bind.bind, Except.bind] at h
    exact sanitize_parameters_required h (parsePropsLoop_required_empty hloop)

theorem schemaDerivedParams_cons (spec : NbApiSpec) (verb : String)
    (p0 : NbOpParam) (rest : List NbOpParam) :
    schemaDerivedParams spec verb (p0 :: rest) =
      if p0.schemaRef.isSome then
        match p0.schemaRef with
        | some ref =>
          match alookup (refTail ref) spec.definitions with
          | none => .error ("KeyError: " ++ refTail ref)
          | some schema =>
            requiredFor verb schema >>= fun required =>
              parse_properties schema.properties required spec none
        | none => .error "unreachable: isSome ref"
      else pure [] := rfl

theorem schemaDerivedParams_ok {spec : NbApiSpec} {verb : String}
    {opParams : List NbOpParam} {ps : List NbParam}
    (h : schemaDerivedParams spec verb opParams = .ok ps) :
    ∀ p ∈ ps, paramOK p := by
  cases opParams with
  | nil =>
    cases h
    intro p hp
    cases hp
  | cons p0 rest =>
    rw [schemaDerivedParams_cons] at h
    by_cases hs : p0.schemaRef.isSome
    · rw [if_pos hs] at h
      cases href : p0.schemaRef with
      | none =>
        rw [href] at hs
        cases hs
      | some ref =>
        rw [href] at h
        replace h : (match alookup (refTail ref) spec.definitions with
          | none => (.error ("KeyError: " ++ refTail ref) : Except String (List NbParam))
          | some schema =>
            requiredFor verb schema >>= fun required =>
              parse_properties schema.properties required spec none) = .ok ps := h
        cases hdef : alookup (refTail ref) spec.definitions with
        | none =>
          rw [hdef] at h
          exact Except.noConfusion h
        | some schema =>
          rw [hdef] at h
          replace h : (requiredFor verb schema >>= fun required =>
            parse_properties schema.properties required spec none) = .ok ps := h
          cases hreq : requiredFor verb schema with
          | error e =>
            rw [hreq] at h
            simp [Bind.bind, Except.bind] at h
          | ok required =>
            rw [hreq] at h
            simp only [Bind.bind, Except.bind] at h
            exact parse_properties_ok h
    · rw [if_neg hs] at h
      cases h
      intro p hp
      cases hp

theorem requiredFor_patch (schema : NbDefinition) :
    requiredFor "patch" schema = pure [] := rfl

theorem schemaDerivedParams_patch_required {spec : NbApiSpec}
    {opParams : List NbOpParam} {ps : List NbParam}
    (h : schemaDerivedParams spec "patch" opParams = .ok ps) :
    ∀ p ∈ ps, p.required = false := by
  cases opParams with
  | nil =>
    cases h
    intro p hp
    cases hp
  | cons p0 rest =>
    rw [schemaDerivedParams_cons] at h
    by_cases hs : p0.schemaRef.isSome
    · rw [if_pos hs] at h
      cases href : p0.schemaRef with
      | none =>
        rw [href] at hs
        cases hs
      | some ref =>
        rw [href] at h
        replace h : (match alookup (refTail ref) spec.definitions with
          | none => (.error ("KeyError: " ++ refTail ref) : Except String (List NbParam))
          | some schema =>
            requiredFor "patch" schema >>= fun required =>
              parse_properties schema.properties required spec none) = .ok ps := h
        cases hdef : alookup (refTail ref) spec.definitions with
        | none =>
          rw [hdef] at h
          exact Except.noConfusion h
        | some schema =>
          rw [hdef] at h
          replace h : (requiredFor "patch" schema >>= fun required =>
            parse_properties schema.properties required spec none) = .ok ps := h
          rw [requiredFor_patch] at h
          simp only [Bind.bind, Except.bind, pure, Except.pure] at h
          exact parse_properties_required_empty h
    · rw [if_neg hs] at h
      cases h
      intro p hp
      cases hp

theorem paramOK_idParamFor (verb : String) : paramOK (idParamFor verb) :=
  ⟨show (some "integer" : Option String) ≠ some "number" by decide,
   fun _ => rfl,
   fun h => absurd h (show ¬ (("id" = "id__in") ∨ ("id" = "tags")) by decide)⟩

theorem paramOK_idParamObj : paramOK idParamObj := by decide

theorem paramOK_idParamRoute : paramOK idParamRoute := by decide

theorem paramOK_prefixLengthParam : paramOK prefixLengthParam := by decide

theorem paramOK_privateKeyParam : paramOK privateKeyParam := by decide

theorem paramOK_deferIdParam : paramOK deferIdParam := by decide

theorem buildBase_ok {spec : NbApiSpec} {path verb : String} {vd : NbVerbData}
    {act : NbAction} (h : buildBase spec path verb vd = .ok act) :
    ∀ p ∈ act.parameters, paramOK p := by
  unfold buildBase at h
  cases hd : baseDescription verb path vd with
  | error e =>
    rw [hd] at h
    simp [Bind.bind, Except.bind] at h
  | ok desc =>
    rw [hd] at h
    simp only [Bind.bind, Except.bind] at h
    cases hp : schemaDerivedParams spec verb vd.parameters with
    | error e =>
      rw [hp] at h
      simp [Except.bind] at h
    | ok ps =>
      rw [hp] at h
      simp only [pure, Except.pure] at h
      cases h
      exact schemaDerivedParams_ok hp

theorem availableIPsAction_ok {spec : NbApiSpec} {act a : NbAction}
    (h : availableIPsAction spec act = .ok a) : ∀ p ∈ a.parameters, paramOK p := by
  unfold availableIPsAction at h
  cases h1 : alookup "IPAddress" spec.definitions with
  | none =>
    rw [h1] at h
    exact Except.noConfusion h
  | some schema =>
    rw [h1] at h
    replace h : (match schema.required with
      | none => (.error "KeyError: required" : Except String NbAction)
      | some req =>
        (parse_properties schema.properties req spec (some ["address"])).map fun ps =>
          { act with
            parameters := ps ++ [idParamRoute],
            get_detail_route_eligible := false,
            description := "Create the next available IP Address in a given Prefix." })
        = .ok a := h
    cases h2 : schema.required with
    | none =>
      rw [h2] at h
      exact Except.noConfusion h
    | some req =>
      rw [h2] at h
      replace h : ((parse_properties schema.properties req spec (some ["address"])).map fun ps =>
          { act with
            parameters := ps ++ [idParamRoute],
            get_detail_route_eligible := false,
            description := "Create the next available IP Address in a given Prefix." })
          = .ok a := h
      cases h3 : parse_properties schema.properties req spec (some ["address"]) with
      | error e =>
        rw [h3] at h
        exact Except.noConfusion h
      | ok ps =>
        rw [h3] at h
        replace h : Except.ok { act with
            parameters := ps ++ [idParamRoute],
            get_detail_route_eligible := false,
            description := "Create the next available IP Address in a given Prefix." }
          = Except.ok a := h
        cases h
        intro p hp
        rcases List.mem_append.mp hp with hp' | hp'
        · exact parse_properties_ok h3 p hp'
        · rw [List.mem_singleton.mp hp']
          exact paramOK_idParamRoute

theorem availablePrefixesAction_ok {spec : NbApiSpec} {act a : NbAction}
    (h : availablePrefixesAction spec act = .ok a) : ∀ p ∈ a.parameters, paramOK p := by
  unfold availablePrefixesAction at h
  cases h1 : alookup "Prefix" spec.definitions with
  | none =>
    rw [h1] at h
    exact Except.noConfusion h
  | some schema =>
    rw [h1] at h
    replace h : (match schema.required with
      | none => (.error "KeyError: required" : Except String NbAction)
      | some req =>
        (parse_properties schema.properties req spec (some ["prefix"])).map fun ps =>
          { act with
            parameters := ps ++ [idParamRoute, prefixLengthParam],
            get_detail_route_eligible := false,
            description := "Create the next available Prefix in a given Prefix." })
        = .ok a := h
    cases h2 : schema.required with
    | none =>
      rw [h2] at h
      exact Except.noConfusion h
    | some req =>
      rw [h2] at h
      replace h : ((parse_properties schema.properties req spec (some ["prefix"])).map fun ps =>
          { act with
            parameters := ps ++ [idParamRoute, prefixLengthParam],
            get_detail_route_eligible := false,
            description := "Create the next available Prefix in a given Prefix." })
          = .ok a := h
      cases h3 : parse_properties schema.properties req spec (some ["prefix"]) with
      | error e =>
        rw [h3] at h
        exact Except.noConfusion h
      | ok ps =>
        rw [h3] at h
        replace h : Except.ok { act with
            parameters := ps ++ [idParamRoute, prefixLengthParam],
            get_detail_route_eligible := false,
            description := "Create the next available Prefix in a given Prefix." }
          = Except.ok a := h
        cases h
        intro p hp
        rcases List.mem_append.mp hp with hp' | hp'
        · exact parse_properties_ok h3 p hp'
        · rcases List.mem_cons.mp hp' with rfl | hp''
          · exact paramOK_idParamRoute
          · rw [List.mem_singleton.mp hp'']
            exact paramOK_prefixLengthParam

theorem getClassify_insert_ok {ep : Endpoint} {name uri : String}
    {act : NbAction} {n : String} {a : NbAction}
    (hact : ∀ p ∈ act.parameters, paramOK p)
    (h : getClassify ep name uri act = .ok (.insertA n a)) :
    ∀ p ∈ a.parameters, paramOK p := by
  unfold getClassify at h
  cases hoid : ep.vd.operationId with
  | none =>
    rw [hoid] at h
    exact Except.noConfusion h
  | some oid =>
    rw [hoid] at h
    replace h : (if pyEndsWith oid "_list" then
        (sanitize_parameters (ep.vd.parameters.map (fun p => p.param))).map
          (fun qs => Classified.insertA name { act with parameters := qs })
      else if pyEndsWith uri "/\x7b\x7b id \x7d\x7d/" then
        pure (Classified.deferA name)
      else if pyContains uri "\x7b\x7b id \x7d\x7d" ∧ ¬ pyEndsWith uri "\x7b\x7b id \x7d\x7d" then
        pure (Classified.insertA name { act with
          parameters := act.parameters ++ [idParamObj],
          get_detail_route_eligible := false })
      else
        pure (Classified.skipA name)) = .ok (.insertA n a) := h
    by_cases h1 : pyEndsWith oid "_list" = true
    · rw [if_pos h1] at h
      cases hq : sanitize_parameters (ep.vd.parameters.map (fun p => p.param)) with
      | error e =>
        rw [hq] at h
        exact Except.noConfusion h
      | ok qs =>
        rw [hq] at h
        replace h : Except.ok (Classified.insertA name { act with parameters := qs })
            = Except.ok (Classified.insertA n a) := h
        cases h
        exact sanitize_parameters_ok hq
    · rw [if_neg h1] at h
      by_cases h2 : pyEndsWith uri "/\x7b\x7b id \x7d\x7d/" = true
      · rw [if_pos h2] at h
        replace h : Except.ok (Classified.deferA name)
            = Except.ok (Classified.insertA n a) := h
        injection h with h'
        exact Classified.noConfusion h'
      · rw [if_neg h2] at h
        by_cases h3 : pyContains uri "\x7b\x7b id \x7d\x7d" = true
            ∧ ¬ pyEndsWith uri "\x7b\x7b id \x7d\x7d" = true
        · rw [if_pos h3] at h
          replace h : Except.ok (Classified.insertA name { act with
              parameters := act.parameters ++ [idParamObj],
              get_detail_route_eligible := false })
            = Except.ok (Classified.insertA n a) := h
          cases h
          intro p hp
          rcases List.mem_append.mp hp with hp' | hp'
          · exact hact p hp'
          · rw [List.mem_singleton.mp hp']
            exact paramOK_idParamObj
        · rw [if_neg h3] at h
          replace h : Except.ok (Classified.skipA name)
              = Except.ok (Classified.insertA n a) := h
          injection h with h'
          exact Classified.noConfusion h'

theorem classifyEndpoint_insert_ok {spec : NbApiSpec} {ep : Endpoint}
    {n : String} {a : NbAction}
    (h : classifyEndpoint spec ep = .ok (.insertA n a)) :
    ∀ p ∈ a.parameters, paramOK p := by
  unfold classifyEndpoint at h
  cases hb : buildBase spec ep.path ep.verb ep.vd with
  | error e =>
    rw [hb] at h
    simp [Bind.bind, Except.bind] at h
  | ok act =>
    rw [hb] at h
    replace h : (if ep.verb = "post" ∧ actionName ep.verb ep.path = "post.ipam.prefixes.available_ips" then
        (availableIPsAction spec act).map (Classified.insertA (actionName ep.verb ep.path))
      else if ep.verb = "post" ∧ actionName ep.verb ep.path = "post.ipam.prefixes.available_prefixes" then
        (availablePrefixesAction spec act).map (Classified.insertA (actionName ep.verb ep.path))
      else if ep.verb = "get" ∧ actionName ep.verb ep.path = "get.secrets.generate_rsa_key_pair" then
        pure (Classified.insertA (actionName ep.verb ep.path) { act with
          description := "This endpoint can be used to generate a new RSA key pair." })
      else if ep.verb = "post" ∧ actionName ep.verb ep.path = "post.secrets.get_session_key" then
        pure (Classified.insertA (actionName ep.verb ep.path) (sessionKeyAction act))
      else if ep.verb = "get" then
        getClassify ep (actionName ep.verb ep.path) (endpointUri ep.path) act
      else if ep.verb = "delete" ∨ ep.verb = "put" ∨ ep.verb = "patch" then
        pure (Classified.insertA (actionName ep.verb ep.path) { act with
          parameters := act.parameters ++ [idParamFor ep.verb] })
      else if ep.verb = "post" ∧ ¬ pyContains (endpointUri ep.path) "\x7b\x7b id \x7d\x7d" then
        pure (Classified.insertA (actionName ep.verb ep.path) act)
      else
        pure (Classified.skipA (actionName ep.verb ep.path))) = .ok (.insertA n a) := h
    have hact := buildBase_ok hb
    by_cases c1 : ep.verb = "post" ∧ actionName ep.verb ep.path = "post.ipam.prefixes.available_ips"
    · rw [if_pos c1] at h
      cases hip : availableIPsAction spec act with
      | error e =>
        rw [hip] at h
        exact Except.noConfusion h
      | ok a1 =>
        rw [hip] at h
        replace h : Except.ok (Classified.insertA (actionName ep.verb ep.path) a1)
            = Except.ok (Classified.insertA n a) := h
        cases h
        exact availableIPsAction_ok hip
    · rw [if_neg c1] at h
      by_cases c2 : ep.verb = "post" ∧ actionName ep.verb ep.path = "post.ipam.prefixes.available_prefixes"
      · rw [if_pos c2] at h
        cases hip : availablePrefixesAction spec act with
        | error e =>
          rw [hip] at h
          exact Except.noConfusion h
        | ok a1 =>
          rw [hip] at h
          replace h : Except.ok (Classified.insertA (actionName ep.verb ep.path) a1)
              = Except.ok (Classified.insertA n a) := h
          cases h
          exact availablePrefixesAction_ok hip
      · rw [if_neg c2] at h
        by_cases c3 : ep.verb = "get" ∧ actionName ep.verb ep.path = "get.secrets.generate_rsa_key_pair"
        · rw [if_pos c3] at h
          replace h : Except.ok (Classified.insertA (actionName ep.verb ep.path) { act with
              description := "This endpoint can be used to generate a new RSA key pair." })
            = Except.ok (Classified.insertA n a) := h
          cases h
          exact hact
        · rw [if_neg c3] at h
          by_cases c4 : ep.verb = "post" ∧ actionName ep.verb ep.path = "post.secrets.get_session_key"
          · rw [if_pos c4] at h
            replace h : Except.ok (Classified.insertA (actionName ep.verb ep.path) (sessionKeyAction act))
                = Except.ok (Classified.insertA n a) := h
            cases h
            intro p hp
            rcases List.mem_append.mp hp with hp' | hp'
            · exact hact p hp'
            · rw [List.mem_singleton.mp hp']
              exact paramOK_privateKeyParam
          · rw [if_neg c4] at h
            by_cases c5 : ep.verb = "get"
            · rw [if_pos c5] at h
              exact getClassify_insert_ok hact h
            · rw [if_neg c5] at h
              by_cases c6 : ep.verb = "delete" ∨ ep.verb = "put" ∨ ep.verb = "patch"
              · rw [if_pos c6] at h
                replace h : Except.ok (Classified.insertA (actionName ep.verb ep.path) { act with
                    parameters := act.parameters ++ [idParamFor ep.verb] })
                  = Except.ok (Classified.insertA n a) := h
                cases h
                intro p hp
                rcases List.mem_append.mp hp with hp' | hp'
                · exact hact p hp'
                · rw [List.mem_singleton.mp hp']
                  exact paramOK_idParamFor ep.verb
              · rw [if_neg c6] at h
                by_cases c7 : ep.verb = "post" ∧ ¬ pyContains (endpointUri ep.path) "\x7b\x7b id \x7d\x7d" = true
                · rw [if_pos c7] at h
                  replace h : Except.ok (Classified.insertA (actionName ep.verb ep.path) act)
                      = Except.ok (Classified.insertA n a) := h
                  cases h
                  exact hact
                · rw [if_neg c7] at h
                  replace h : Except.ok (Classified.skipA (actionName ep.verb ep.path))
                      = Except.ok (Classified.insertA n a) := h
                  injection h with h'
                  exact Classified.noConfusion h'

/-! ## Run-level invariants -/

/-- Every parameter of every recorded action satisfies `paramOK`. -/
def actionsOK (acts : List (String × NbAction)) : Prop :=
  ∀ n a, (n, a) ∈ acts → ∀ p ∈ a.parameters, paramOK p

theorem insertAct_actionsOK {acts : List (String × NbAction)} {k : String}
    {v : NbAction} (ha : actionsOK acts) (hv : ∀ p ∈ v.parameters, paramOK p) :
    actionsOK (insertAct acts k v) := by
  intro n a hmem
  rcases mem_insertAct hmem with ⟨rfl, rfl⟩ | hmem'
  · exact hv
  · exact ha n a hmem'

theorem stepEndpoint_actionsOK {spec : NbApiSpec} {st st' : GenState} {ep : Endpoint}
    (h : stepEndpoint spec st ep = .ok st') (ha : actionsOK st.actions) :
    actionsOK st'.actions := by
  rcases stepEndpoint_ok h with ⟨c, hc, rfl⟩
  cases c with
  | insertA n a => exact insertAct_actionsOK ha (classifyEndpoint_insert_ok hc)
  | deferA n => exact ha
  | skipA n => exact ha

theorem stepEndpoint_nodup {spec : NbApiSpec} {st st' : GenState} {ep : Endpoint}
    (h : stepEndpoint spec st ep = .ok st') (hn : (keysOf st.actions).Nodup) :
    (keysOf st'.actions).Nodup := by
  rcases stepEndpoint_ok h with ⟨c, _, rfl⟩
  exact applyClassified_nodup st c hn

theorem stepEndpoint_warnings_mono {spec : NbApiSpec} {st st' : GenState}
    {ep : Endpoint} {w : String} (h : stepEndpoint spec st ep = .ok st')
    (hw : w ∈ st.warnings) : w ∈ st'.warnings := by
  rcases stepEndpoint_ok h with ⟨c, _, rfl⟩
  exact applyClassified_warnings_mono st c hw

theorem stepEndpoint_keys_mono {spec : NbApiSpec} {st st' : GenState}
    {ep : Endpoint} {k : String} (h : stepEndpoint spec st ep = .ok st')
    (hk : k ∈ keysOf st.actions) : k ∈ keysOf st'.actions := by
  rcases stepEndpoint_ok h with ⟨c, _, rfl⟩
  exact applyClassified_keys_mono st c hk

/-! ## runDeferred lemmas -/

theorem runDeferred_keysOf (acts : List (String × NbAction)) (ws ds : List String) :
    keysOf (runDeferred acts ws ds).1 = keysOf acts := by
  induction ds generalizing acts ws with
  | nil => rfl
  | cons d rest ih =>
    unfold runDeferred
    cases hd : alookup d acts with
    | some a =>
      rw [ih]
      exact keysOf_insertAct_of_mem _ (mem_keysOf_of_alookup hd)
    | none =>
      exact ih acts _

theorem runDeferred_warnings_mono {w : String} {ws : List String}
    (acts : List (String × NbAction)) (ds : List String) (hw : w ∈ ws) :
    w ∈ (runDeferred acts ws ds).2 := by
  induction ds generalizing acts ws with
  | nil => exact hw
  | cons d rest ih =>
    unfold runDeferred
    cases hd : alookup d acts with
    | some a => exact ih _ hw
    | none => exact ih _ (List.mem_append_left _ hw)

theorem runDeferred_missing {n : String} {acts : List (String × NbAction)}
    {ws ds : List String} (hn : n ∈ ds) (hno : n ∉ keysOf acts) :
    missingListWarning n ∈ (runDeferred acts ws ds).2 := by
  induction ds generalizing acts ws with
  | nil => cases hn
  | cons d rest ih =>
    unfold runDeferred
    cases hd : alookup d acts with
    | some a =>
      rcases List.mem_cons.mp hn with rfl | hn'
      · exact absurd (mem_keysOf_of_alookup hd) hno
      · refine ih hn' ?_
        rw [keysOf_insertAct_of_mem _ (mem_keysOf_of_alookup hd)]
        exact hno
    | none =>
      rcases List.mem_cons.mp hn with rfl | hn'
      · exact runDeferred_warnings_mono acts rest
          (List.mem_append_right _ (List.mem_singleton.mpr rfl))
      · exact ih hn' hno

theorem runDeferred_actionsOK {acts : List (String × NbAction)} {ws ds : List String}
    (ha : actionsOK acts) : actionsOK (runDeferred acts ws ds).1 := by
  induction ds generalizing acts ws with
  | nil => exact ha
  | cons d rest ih =>
    unfold runDeferred
    cases hd : alookup d acts with
    | some a =>
      refine ih (insertAct_actionsOK ha ?_)
      intro p hp
      rcases List.mem_append.mp hp with hp' | hp'
      · exact ha d a (alookup_mem hd) p hp'
      · rw [List.mem_singleton.mp hp']
        exact paramOK_deferIdParam
    | none => exact ih ha

theorem runDeferred_fst_ws (acts : List (String × NbAction)) (ws ws' ds : List String) :
    (runDeferred acts ws ds).1 = (runDeferred acts ws' ds).1 := by
  induction ds generalizing acts ws ws' with
  | nil => rfl
  | cons d rest ih =>
    unfold runDeferred
    cases hd : alookup d acts with
    | some a => exact ih _ _ _
    | none => exact ih _ _ _

/-! ## run-level decomposition -/

theorem runOn_ok {spec : NbApiSpec} {eps : List Endpoint} {res : RunResult}
    (h : runOn spec eps = .ok res) :
    ∃ st : GenState, eps.foldlM (stepEndpoint spec) ⟨[], [], []⟩ = .ok st
      ∧ res = ⟨(runDeferred st.actions st.warnings st.deferred).1,
               (runDeferred st.actions st.warnings st.deferred).2⟩ := by
  unfold runOn at h
  cases hf : eps.foldlM (stepEndpoint spec) ⟨[], [], []⟩ with
  | error e =>
    rw [hf] at h
    simp [Bind.bind, Except.bind] at h
  | ok st =>
    rw [hf] at h
    simp only [Bind.bind, Except.bind, pure, Except.pure] at h
    cases h
    exact ⟨st, rfl, rfl⟩

theorem run_actionsOK {spec : NbApiSpec} {res : RunResult}
    (h : Generate.run spec = .ok res) : actionsOK res.actions := by
  rcases runOn_ok h with ⟨st, hf, rfl⟩
  have hst : actionsOK st.actions :=
    foldlM_except_inv (stepEndpoint spec) (fun s => actionsOK s.actions)
      (fun s a s' hP hs => stepEndpoint_actionsOK hs hP)
      (endpointList spec) ⟨[], [], []⟩ st (by intro n a hmem; cases hmem) hf
  exact runDeferred_actionsOK hst

theorem run_nodup {spec : NbApiSpec} {res : RunResult}
    (h : Generate.run spec = .ok res) : (keysOf res.actions).Nodup := by
  rcases runOn_ok h with ⟨st, hf, rfl⟩
  have hst : (keysOf st.actions).Nodup :=
    foldlM_except_inv (stepEndpoint spec) (fun s => (keysOf s.actions).Nodup)
      (fun s a s' hP hs => stepEndpoint_nodup hs hP)
      (endpointList spec) ⟨[], [], []⟩ st List.nodup_nil hf
  rw [runDeferred_keysOf]
  exact hst

theorem run_insert_mem_keys {spec : NbApiSpec} {ep : Endpoint} {n : String}
    {a : NbAction} {res : RunResult} (hmem : ep ∈ endpointList spec)
    (hc : classifyEndpoint spec ep = .ok (.insertA n a))
    (h : Generate.run spec = .ok res) : n ∈ keysOf res.actions := by
  rcases runOn_ok h with ⟨st, hf, rfl⟩
  have hst : n ∈ keysOf st.actions := by
    refine foldlM_except_mem (stepEndpoint spec) (fun s => n ∈ keysOf s.actions)
      (fun s a' s' hP hs => stepEndpoint_keys_mono hs hP) ep ?_
      (endpointList spec) ⟨[], [], []⟩ st hmem hf
    intro s s' hs
    rcases stepEndpoint_ok hs with ⟨c, hc', rfl⟩
    rw [hc] at hc'
    cases hc'
    exact mem_keysOf_insertAct_self s.actions n a
  rw [runDeferred_keysOf]
  exact hst

theorem run_skip_warning {spec : NbApiSpec} {ep : Endpoint} {nm : String}
    {res : RunResult} (hmem : ep ∈ endpointList spec)
    (hc : classifyEndpoint spec ep = .ok (.skipA nm))
    (h : Generate.run spec = .ok res) : skipWarning nm ∈ res.warnings := by
  rcases runOn_ok h with ⟨st, hf, rfl⟩
  have hst : skipWarning nm ∈ st.warnings := by
    refine foldlM_except_mem (stepEndpoint spec) (fun s => skipWarning nm ∈ s.warnings)
      (fun s a' s' hP hs => stepEndpoint_warnings_mono hs hP) ep ?_
      (endpointList spec) ⟨[], [], []⟩ st hmem hf
    intro s s' hs
    rcases stepEndpoint_ok hs with ⟨c, hc', rfl⟩
    rw [hc] at hc'
    cases hc'
    exact List.mem_append_right _ (List.mem_singleton.mpr rfl)
  exact runDeferred_warnings_mono st.actions st.deferred hst

/-! ## Skipped endpoints contribute nothing to the actions dict -/

/-- Whether a classification outcome is the warning fall-through. -/
def isSkipC : Except String Classified → Bool
  | .ok (.skipA _) => true
  | _ => false

/-- Relation between the outcomes of the full fold and the fold over the
non-skipped endpoints: identical failure, or identical actions and
deferred lists. -/
def okRel : Except String GenState → Except String GenState → Prop
  | .ok s1, .ok s2 => s1.actions = s2.actions ∧ s1.deferred = s2.deferred
  | .error e1, .error e2 => e1 = e2
  | _, _ => False

theorem stepEndpoint_eq_of_classify_ok {spec : NbApiSpec} {ep : Endpoint}
    {c : Classified} (st : GenState) (hc : classifyEndpoint spec ep = .ok c) :
    stepEndpoint spec st ep = .ok (applyClassified st c) := by
  unfold stepEndpoint
  rw [hc]
  rfl

theorem stepEndpoint_eq_of_classify_error {spec : NbApiSpec} {ep : Endpoint}
    {e : String} (st : GenState) (hc : classifyEndpoint spec ep = .error e) :
    stepEndpoint spec st ep = .error e := by
  unfold stepEndpoint
  rw [hc]
  rfl

theorem foldlM_filter_skip (spec : NbApiSpec) :
    ∀ (eps : List Endpoint) (st1 st2 : GenState),
      st1.actions = st2.actions → st1.deferred = st2.deferred →
      okRel (eps.foldlM (stepEndpoint spec) st1)
        ((eps.filter (fun ep => !isSkipC (classifyEndpoint spec ep))).foldlM
          (stepEndpoint spec) st2) := by
  intro eps
  induction eps with
  | nil =>
    intro st1 st2 ha hd
    exact ⟨ha, hd⟩
  | cons ep rest ih =>
    intro st1 st2 ha hd
    rw [List.filter_cons]
    cases hc : classifyEndpoint spec ep with
    | error e =>
      rw [if_pos (show (!isSkipC (Except.error e)) = true from rfl)]
      rw [List.foldlM_cons, List.foldlM_cons,
        stepEndpoint_eq_of_classify_error st1 hc,
        stepEndpoint_eq_of_classify_error st2 hc]
      show okRel (.error e) (.error e)
      rfl
    | ok c =>
      cases c with
      | skipA nm =>
        rw [if_neg (show ¬ ((!isSkipC (Except.ok (Classified.skipA nm))) = true) from
          fun hco => Bool.false_ne_true hco)]
        rw [List.foldlM_cons, stepEndpoint_eq_of_classify_ok st1 hc]
        show okRel (rest.foldlM (stepEndpoint spec) (applyClassified st1 (.skipA nm))) _
        exact ih (applyClassified st1 (.skipA nm)) st2 ha hd
      | insertA n a =>
        rw [if_pos (show (!isSkipC (Except.ok (Classified.insertA n a))) = true from rfl)]
        rw [List.foldlM_cons, List.foldlM_cons,
          stepEndpoint_eq_of_classify_ok st1 hc, stepEndpoint_eq_of_classify_ok st2 hc]
        show okRel (rest.foldlM (stepEndpoint spec) (applyClassified st1 (.insertA n a)))
          ((rest.filter (fun ep => !isSkipC (classifyEndpoint spec ep))).foldlM
            (stepEndpoint spec) (applyClassified st2 (.insertA n a)))
        refine ih _ _ ?_ hd
        show insertAct st1.actions n a = insertAct st2.actions n a
        rw [ha]
      | deferA n =>
        rw [if_pos (show (!isSkipC (Except.ok (Classified.deferA n))) = true from rfl)]
        rw [List.foldlM_cons, List.foldlM_cons,
          stepEndpoint_eq_of_classify_ok st1 hc, stepEndpoint_eq_of_classify_ok st2 hc]
        show okRel (rest.foldlM (stepEndpoint spec) (applyClassified st1 (.deferA n)))
          ((rest.filter (fun ep => !isSkipC (classifyEndpoint spec ep))).foldlM
            (stepEndpoint spec) (applyClassified st2 (.deferA n)))
        refine ih _ _ ha ?_
        show st1.deferred ++ [n] = st2.deferred ++ [n]
        rw [hd]

theorem run_actions_eq_filter_skip (spec : NbApiSpec) :
    (Generate.run spec).map RunResult.actions =
      (Generate.runOn spec ((endpointList spec).filter
        (fun ep => !isSkipC (classifyEndpoint spec ep)))).map RunResult.actions := by
  have hrel := foldlM_filter_skip spec (endpointList spec) ⟨[], [], []⟩ ⟨[], [], []⟩ rfl rfl
  show (runOn spec (endpointList spec)).map RunResult.actions = _
  unfold runOn
  cases h1 : (endpointList spec).foldlM (stepEndpoint spec) ⟨[], [], []⟩ with
  | error e =>
    rw [h1] at hrel
    cases h2 : ((endpointList spec).filter
        (fun ep => !isSkipC (classifyEndpoint spec ep))).foldlM
        (stepEndpoint spec) ⟨[], [], []⟩ with
    | error e2 =>
      rw [h2] at hrel
      have he : e = e2 := hrel
      rw [he]
    | ok st2 =>
      rw [h2] at hrel
      exact absurd hrel (by simp [okRel])
  | ok st1 =>
    rw [h1] at hrel
    cases h2 : ((endpointList spec).filter
        (fun ep => !isSkipC (classifyEndpoint spec ep))).foldlM
        (stepEndpoint spec) ⟨[], [], []⟩ with
    | error e2 =>
      rw [h2] at hrel
      exact absurd hrel (by simp [okRel])
    | ok st2 =>
      rw [h2] at hrel
      rcases hrel with ⟨ha, hd⟩
      show Except.map RunResult.actions (Except.ok
          (⟨(runDeferred st1.actions st1.warnings st1.deferred).1,
            (runDeferred st1.actions st1.warnings st1.deferred).2⟩ : RunResult)) = _
      show Except.ok (runDeferred st1.actions st1.warnings st1.deferred).1 = _
      rw [ha, hd, runDeferred_fst_ws st2.actions st1.warnings st2.warnings st2.deferred]
      rfl

/-! ## fileOps lemmas -/

theorem append_yaml_inj : Function.Injective (fun k : String => k ++ ".yaml") := by
  intro a b h
  rcases a with ⟨la⟩
  rcases b with ⟨lb⟩
  have hd : la ++ ".yaml".data = lb ++ ".yaml".data := congrArg String.data h
  have hl : la = lb := List.append_cancel_right hd
  rw [hl]

theorem writeNames_fileOps (listing : List String) (date : Nat) (version : String)
    (acts : List (String × NbAction)) :
    writeNames (fileOps listing date version acts)
      = (keysOf acts).map (fun k => k ++ ".yaml") := by
  unfold writeNames fileOps
  rw [List.filterMap_append, List.filterMap_map, List.filterMap_map]
  have h1 : List.filterMap
      ((fun op => match op with | FsOp.writeF f _ => some f | _ => none) ∘ FsOp.deleteF)
      (listing.filter (fun f => pyEndsWith f ".yaml")) = [] := by
    induction listing.filter (fun f => pyEndsWith f ".yaml") with
    | nil => rfl
    | cons x xs ih => simp only [Function.comp, List.filterMap_cons]; exact ih
  rw [h1]
  show List.filterMap _ acts = _
  unfold keysOf
  rw [List.map_map]
  induction acts with
  | nil => rfl
  | cons p rest ih => simpa [Function.comp, List.filterMap_cons] using ih

theorem deleteNames_fileOps (listing : List String) (date : Nat) (version : String)
    (acts : List (String × NbAction)) :
    deleteNames (fileOps listing date version acts)
      = listing.filter (fun f => pyEndsWith f ".yaml") := by
  unfold deleteNames fileOps
  rw [List.filterMap_append, List.filterMap_map, List.filterMap_map]
  have h2 : List.filterMap
      ((fun op => match op with | FsOp.deleteF f => some f | _ => none) ∘
        (fun p : String × NbAction =>
          FsOp.writeF (p.1 ++ ".yaml")
            (renderTemplate ⟨date, version, p.1, p.2.parameters, p.2.description,
              p.2.endpoint_uri, p.2.verb, p.2.get_detail_route_eligible⟩)))
      acts = [] := by
    induction acts with
    | nil => rfl
    | cons p rest ih => simp only [Function.comp, List.filterMap_cons]; exact ih
  rw [h2]
  have h1 : List.filterMap
      ((fun op => match op with | FsOp.deleteF f => some f | _ => none) ∘ FsOp.deleteF)
      (listing.filter (fun f => pyEndsWith f ".yaml"))
      = listing.filter (fun f => pyEndsWith f ".yaml") := by
    induction listing.filter (fun f => pyEndsWith f ".yaml") with
    | nil => rfl
    | cons x xs ih => simpa [Function.comp, List.filterMap_cons] using ih
  rw [h1, List.append_nil]

theorem fileOps_deletes_before_writes (listing : List String) (date : Nat)
    (version : String) (acts : List (String × NbAction)) :
    fileOps listing date version acts
      = (fileOps listing date version acts).filter FsOp.isDeleteF
        ++ (fileOps listing date version acts).filter FsOp.isWriteF := by
  unfold fileOps
  rw [List.filter_append, List.filter_append]
  have hdd : ((listing.filter (fun f => pyEndsWith f ".yaml")).map FsOp.deleteF).filter
      FsOp.isDeleteF = (listing.filter (fun f => pyEndsWith f ".yaml")).map FsOp.deleteF :=
    List.filter_eq_self.mpr (by
      intro op hop
      rcases List.mem_map.mp hop with ⟨f, _, rfl⟩
      rfl)
  have hdw : ((listing.filter (fun f => pyEndsWith f ".yaml")).map FsOp.deleteF).filter
      FsOp.isWriteF = [] :=
    List.filter_eq_nil_iff.mpr (by
      intro op hop
      rcases List.mem_map.mp hop with ⟨f, _, rfl⟩
      simp [FsOp.isWriteF])
  have hwd : ((acts.map (fun p =>
      FsOp.writeF (p.1 ++ ".yaml")
        (renderTemplate ⟨date, version, p.1, p.2.parameters, p.2.description,
          p.2.endpoint_uri, p.2.verb, p.2.get_detail_route_eligible⟩))).filter
      FsOp.isDeleteF) = [] :=
    List.filter_eq_nil_iff.mpr (by
      intro op hop
      rcases List.mem_map.mp hop with ⟨p, _, rfl⟩
      simp [FsOp.isDeleteF])
  have hww : ((acts.map (fun p =>
      FsOp.writeF (p.1 ++ ".yaml")
        (renderTemplate ⟨date, version, p.1, p.2.parameters, p.2.description,
          p.2.endpoint_uri, p.2.verb, p.2.get_detail_route_eligible⟩))).filter
      FsOp.isWriteF) = acts.map (fun p =>
      FsOp.writeF (p.1 ++ ".yaml")
        (renderTemplate ⟨date, version, p.1, p.2.parameters, p.2.description,
          p.2.endpoint_uri, p.2.verb, p.2.get_detail_route_eligible⟩)) :=
    List.filter_eq_self.mpr (by
      intro op hop
      rcases List.mem_map.mp hop with ⟨p, _, rfl⟩
      rfl)
  rw [hdd, hdw, hwd, hww, List.append_nil, List.nil_append]

theorem mem_write_fileOps {listing : List String} {date : Nat} {version : String}
    {acts : List (String × NbAction)} {f : String} {c : TemplateVars}
    (h : FsOp.writeF f c ∈ fileOps listing date version acts) :
    ∃ k a, (k, a) ∈ acts ∧ f = k ++ ".yaml"
      ∧ c = ⟨date, version, k, a.parameters, a.description,
             a.endpoint_uri, a.verb, a.get_detail_route_eligible⟩ := by
  unfold fileOps at h
  rcases List.mem_append.mp h with h1 | h2
  · rcases List.mem_map.mp h1 with ⟨g, _, heq⟩
    exact FsOp.noConfusion heq
  · rcases List.mem_map.mp h2 with ⟨p, hp, heq⟩
    injection heq with hf hc
    exact ⟨p.1, p.2, hp, hf.symm, hc.symm⟩

end Generate

/-! ## Runtime-wrapper lemmas -/

namespace NetboxBaseAction

theorem applyJoin_keysOf {j : String} {kw out : List (String × KwVal)}
    (h : applyJoin j kw = .ok out) : keysOf out = keysOf kw := by
  unfold applyJoin at h
  by_cases hg : getTruthy j kw = true
  · rw [if_pos hg] at h
    cases hl : alookup j kw with
    | some v =>
      rw [hl] at h
      replace h : (pyJoinComma v >>= fun jv => pure (setKey j jv kw)) = Except.ok out := h
      cases hj : pyJoinComma v with
      | error e =>
        rw [hj] at h
        simp [Bind.bind, Except.bind] at h
      | ok jv =>
        rw [hj] at h
        replace h : Except.ok (setKey j jv kw) = Except.ok out := h
        cases h
        exact keysOf_setKey j jv kw
    | none =>
      rw [hl] at h
      replace h : Except.ok kw = Except.ok out := h
      cases h
      rfl
  · rw [if_neg hg] at h
    replace h : Except.ok kw = Except.ok out := h
    cases h
    rfl

theorem applyJoin_ne {j k : String} {kw out : List (String × KwVal)}
    (h : applyJoin j kw = .ok out) (hk : k ≠ j) : alookup k out = alookup k kw := by
  unfold applyJoin at h
  by_cases hg : getTruthy j kw = true
  · rw [if_pos hg] at h
    cases hl : alookup j kw with
    | some v =>
      rw [hl] at h
      replace h : (pyJoinComma v >>= fun jv => pure (setKey j jv kw)) = Except.ok out := h
      cases hj : pyJoinComma v with
      | error e =>
        rw [hj] at h
        simp [Bind.bind, Except.bind] at h
      | ok jv =>
        rw [hj] at h
        replace h : Except.ok (setKey j jv kw) = Except.ok out := h
        cases h
        exact alookup_setKey_ne hk jv kw
    | none =>
      rw [hl] at h
      replace h : Except.ok kw = Except.ok out := h
      cases h
      rfl
  · rw [if_neg hg] at h
    replace h : Except.ok kw = Except.ok out := h
    cases h
    rfl

theorem applyJoin_id_of_not_truthy {j : String} {kw out : List (String × KwVal)}
    (h : applyJoin j kw = .ok out) (hg : getTruthy j kw = false) : out = kw := by
  unfold applyJoin at h
  rw [if_neg (by rw [hg]; exact fun hc => Bool.false_ne_true hc)] at h
  replace h : Except.ok kw = Except.ok out := h
  cases h
  rfl

theorem applyJoin_none {j k : String} {kw out : List (String × KwVal)}
    (h : applyJoin j kw = .ok out) (hv : alookup k kw = some .vnone) :
    alookup k out = some .vnone := by
  by_cases hk : k = j
  · subst hk
    have hg : getTruthy k kw = false := by
      unfold getTruthy
      rw [hv]
      rfl
    rw [applyJoin_id_of_not_truthy h hg]
    exact hv
  · rw [applyJoin_ne h hk]
    exact hv

theorem applyJoin_absent {j k : String} {kw out : List (String × KwVal)}
    (h : applyJoin j kw = .ok out) (hv : alookup k kw = none) :
    alookup k out = none := by
  by_cases hk : k = j
  · subst hk
    have hg : getTruthy k kw = false := by
      unfold getTruthy
      rw [hv]
    rw [applyJoin_id_of_not_truthy h hg]
    exact hv
  · rw [applyJoin_ne h hk]
    exact hv

theorem applyJoin_varr {j : String} {kw out : List (String × KwVal)} {xs : List String}
    (h : applyJoin j kw = .ok out) (hx : alookup j kw = some (.varr xs))
    (hne : xs ≠ []) : alookup j out = some (.vstr (pyJoin "," xs)) := by
  have hg : getTruthy j kw = true := by
    unfold getTruthy
    rw [hx]
    show (!xs.isEmpty) = true
    cases xs with
    | nil => exact absurd rfl hne
    | cons x xs' => rfl
  unfold applyJoin at h
  rw [if_pos hg, hx] at h
  replace h : Except.ok (setKey j (KwVal.vstr (pyJoin "," xs)) kw) = Except.ok out := h
  cases h
  rw [alookup_setKey_self, hx]
  rfl

theorem transformKwargs_split {http_action : String} {kwargs out : List (String × KwVal)}
    (h : transformKwargs http_action kwargs = .ok out) :
    ∃ k1 k2, applyJoin "id__in" kwargs = .ok k1 ∧ applyJoin "tags" k1 = .ok k2
      ∧ out = (if http_action = "get" then k2 else k2.filter (fun p => !p.2.isNone)) := by
  unfold transformKwargs at h
  cases h1 : applyJoin "id__in" kwargs with
  | error e =>
    rw [h1] at h
    simp [Bind.bind, Except.bind] at h
  | ok k1 =>
    rw [h1] at h
    simp only [Bind.bind, Except.bind] at h
    cases h2 : applyJoin "tags" k1 with
    | error e =>
      rw [h2] at h
      simp [Except.bind] at h
    | ok k2 =>
      rw [h2] at h
      replace h : Except.ok (if http_action = "get" then k2
          else k2.filter (fun p => !p.2.isNone)) = Except.ok out := h
      cases h
      exact ⟨k1, k2, rfl, h2, rfl⟩

theorem make_request_split {config : NbConfig} {endpoint_uri http_action : String}
    {kwargs : List (String × KwVal)} {req : NbRequest}
    (h : make_request config endpoint_uri http_action kwargs = .ok req) :
    ∃ kw, transformKwargs http_action kwargs = .ok kw
      ∧ req.url = (if config.use_https then "https://" else "http://")
          ++ config.hostname ++ "/api" ++ endpoint_uri
      ∧ req.headers = [("Authorization", "Token " ++ config.api_token),
                       ("Accept", "application/json"),
                       ("Content-Type", "application/json")]
      ∧ req.http_action = http_action := by
  unfold make_request at h
  cases ht : transformKwargs http_action kwargs with
  | error e =>
    rw [ht] at h
    simp [Bind.bind, Except.bind] at h
  | ok kw =>
    rw [ht] at h
    replace h : (if http_action = "get" then
        Except.ok (⟨(if config.use_https then "https://" else "http://")
            ++ config.hostname ++ "/api" ++ endpoint_uri, "get",
          [("Authorization", "Token " ++ config.api_token),
           ("Accept", "application/json"),
           ("Content-Type", "application/json")], config.ssl_verify, .query kw⟩ : NbRequest)
      else if http_action = "post" then
        Except.ok ⟨(if config.use_https then "https://" else "http://")
            ++ config.hostname ++ "/api" ++ endpoint_uri, "post",
          [("Authorization", "Token " ++ config.api_token),
           ("Accept", "application/json"),
           ("Content-Type", "application/json")], config.ssl_verify, .jsonBody kw⟩
      else if http_action = "put" then
        Except.ok ⟨(if config.use_https then "https://" else "http://")
            ++ config.hostname ++ "/api" ++ endpoint_uri, "put",
          [("Authorization", "Token " ++ config.api_token),
           ("Accept", "application/json"),
           ("Content-Type", "application/json")], config.ssl_verify, .jsonBody kw⟩
      else if http_action = "patch" then
        Except.ok ⟨(if config.use_https then "https://" else "http://")
            ++ config.hostname ++ "/api" ++ endpoint_uri, "patch",
          [("Authorization", "Token " ++ config.api_token),
           ("Accept", "application/json"),
           ("Content-Type", "application/json")], config.ssl_verify, .jsonBody kw⟩
      else if http_action = "delete" then
        match alookup "id" kw with
        | some _ =>
          Except.ok ⟨(if config.use_https then "https://" else "http://")
              ++ config.hostname ++ "/api" ++ endpoint_uri, "delete",
            [("Authorization", "Token " ++ config.api_token),
             ("Accept", "application/json"),
             ("Content-Type", "application/json")], config.ssl_verify, .nobody⟩
        | none => .error "KeyError: id"
      else
        .error "NameError: r referenced before assignment") = .ok req := h
    refine ⟨kw, rfl, ?_⟩
    by_cases v1 : http_action = "get"
    · rw [if_pos v1] at h
      cases h
      exact ⟨rfl, rfl, v1.symm⟩
    · rw [if_neg v1] at h
      by_cases v2 : http_action = "post"
      · rw [if_pos v2] at h
        cases h
        exact ⟨rfl, rfl, v2.symm⟩
      · rw [if_neg v2] at h
        by_cases v3 : http_action = "put"
        · rw [if_pos v3] at h
          cases h
          exact ⟨rfl, rfl, v3.symm⟩
        · rw [if_neg v3] at h
          by_cases v4 : http_action = "patch"
          · rw [if_pos v4] at h
            cases h
            exact ⟨rfl, rfl, v4.symm⟩
          · rw [if_neg v4] at h
            by_cases v5 : http_action = "delete"
            · rw [if_pos v5] at h
              cases hid : alookup "id" kw with
              | some v =>
                rw [hid] at h
                cases h
                exact ⟨rfl, rfl, v5.symm⟩
              | none =>
                rw [hid] at h
                exact Except.noConfusion h
            · rw [if_neg v5] at h
              exact Except.noConfusion h

end NetboxBaseAction

theorem alookup_removeKey_ne {α : Type} {k k' : String} (hk : k ≠ k')
    (l : List (String × α)) : alookup k (removeKey k' l) = alookup k l := by
  induction l with
  | nil => rfl
  | cons p rest ih =>
    rcases p with ⟨a, b⟩
    show alookup k (List.filter _ ((a, b) :: rest)) = _
    rw [List.filter_cons]
    by_cases hak : a = k'
    · rw [if_neg (by simp [hak])]
      show alookup k (removeKey k' rest) = _
      rw [ih]
      have : ¬ (a = k) := fun hc => hk (hc ▸ hak.symm ▸ rfl)
      show _ = (if a = k then some b else alookup k rest)
      rw [if_neg this]
    · rw [if_pos (by simp [hak])]
      show (if a = k then some b else alookup k (removeKey k' rest))
        = (if a = k then some b else alookup k rest)
      by_cases hak2 : a = k
      · rw [if_pos hak2, if_pos hak2]
      · rw [if_neg hak2, if_neg hak2, ih]

namespace NetboxHTTPAction

theorem alookup_detailAdjust_snd {uri verb : String} {elig : Bool}
    {kwargs : List (String × KwVal)} {k : String} (hk : k ≠ "id") :
    alookup k (detailAdjust uri verb elig kwargs).2 = alookup k kwargs := by
  unfold detailAdjust
  by_cases hc : verb = "get" ∧ getTruthy "id" kwargs = true ∧ elig = true
  · rw [if_pos hc]
    cases hl : alookup "id" kwargs with
    | some v =>
      exact alookup_removeKey_ne hk kwargs
    | none =>
      rfl
  · rw [if_neg hc]

theorem runCore_fail {config : NbConfig} {verb : String}
    {st : String × List (String × KwVal)} {resp : NbResponse} {out : RunOutcome}
    (hok : resp.ok = false) (h : runCore config verb st resp = .ok out) :
    ∃ req, NetboxBaseAction.make_request config st.1 verb st.2 = .ok req
      ∧ out = ⟨[req], [], false, .jsonVal resp.body⟩ := by
  unfold runCore at h
  cases hm : NetboxBaseAction.make_request config st.1 verb st.2 with
  | error e =>
    rw [hm] at h
    simp [Bind.bind, Except.bind] at h
  | ok req =>
    rw [hm] at h
    replace h : (if resp.ok = true ∧ verb = "get" then
        (if alookup "save_in_key_store" st.2 = some (.vbool true) then
          (if (match alookup "save_in_key_store_key_name" st.2 with
              | some v => v.truthy | none => false) = false then
            (pure ⟨[req], [], false,
              .msg "save_in_key_store_key_name MUST be used with save_in_key_store!"⟩
              : Except String RunOutcome)
          else
            match alookup "save_in_key_store_ttl" st.2 with
            | none => .error "KeyError: save_in_key_store_ttl"
            | some ttl =>
              pure ⟨[req],
                [⟨pyStrVal (match alookup "save_in_key_store_key_name" st.2 with
                    | some v => v | none => .vnone), resp.body, ttl⟩], true,
                .msg ("Result stored in st2 key "
                  ++ pyStrVal (match alookup "save_in_key_store_key_name" st.2 with
                      | some v => v | none => .vnone))⟩)
        else
          pure ⟨[req], [], resp.ok, .noneVal⟩)
      else
        pure ⟨[req], [], resp.ok, .jsonVal resp.body⟩) = .ok out := h
    rw [if_neg (fun hc => by rw [hok] at hc; exact Bool.false_ne_true hc.1)] at h
    replace h : Except.ok (⟨[req], [], resp.ok, .jsonVal resp.body⟩ : RunOutcome)
        = Except.ok out := h
    cases h
    refine ⟨req, rfl, ?_⟩
    rw [hok]

theorem runCore_get_success_no_keystore {config : NbConfig}
    {st : String × List (String × KwVal)} {resp : NbResponse} {out : RunOutcome}
    (hok : resp.ok = true)
    (hsk : alookup "save_in_key_store" st.2 ≠ some (.vbool true))
    (h : runCore config "get" st resp = .ok out) :
    out.status = true ∧ out.raw = .noneVal := by
  unfold runCore at h
  cases hm : NetboxBaseAction.make_request config st.1 "get" st.2 with
  | error e =>
    rw [hm] at h
    simp [Bind.bind, Except.bind] at h
  | ok req =>
    rw [hm] at h
    replace h : (if resp.ok = true ∧ "get" = "get" then
        (if alookup "save_in_key_store" st.2 = some (.vbool true) then
          (if (match alookup "save_in_key_store_key_name" st.2 with
              | some v => v.truthy | none => false) = false then
            (pure ⟨[req], [], false,
              .msg "save_in_key_store_key_name MUST be used with save_in_key_store!"⟩
              : Except String RunOutcome)
          else
            match alookup "save_in_key_store_ttl" st.2 with
            | none => .error "KeyError: save_in_key_store_ttl"
            | some ttl =>
              pure ⟨[req],
                [⟨pyStrVal (match alookup "save_in_key_store_key_name" st.2 with
                    | some v => v | none => .vnone), resp.body, ttl⟩], true,
                .msg ("Result stored in st2 key "
                  ++ pyStrVal (match alookup "save_in_key_store_key_name" st.2 with
                      | some v => v | none => .vnone))⟩)
        else
          pure ⟨[req], [], resp.ok, .noneVal⟩)
      else
        pure ⟨[req], [], resp.ok, .jsonVal resp.body⟩) = .ok out := h
    rw [if_pos ⟨hok, rfl⟩, if_neg hsk] at h
    replace h : Except.ok (⟨[req], [], resp.ok, .noneVal⟩ : RunOutcome)
        = Except.ok out := h
    cases h
    exact ⟨hok, rfl⟩

end NetboxHTTPAction

/-! ## Concrete documents and runs used as witnesses and counterexamples -/

def vdC1 : NbVerbData := { description := some "Head X", operationId := some "x_head" }

def specC1 : NbApiSpec := { paths := [("/x/", [("head", vdC1)])], version := "1.0" }

def vdC1w : NbVerbData := { description := some "List devices", operationId := some "dcim_devices_list" }

def specC1w : NbApiSpec := { paths := [("/dcim/devices/", [("get", vdC1w)])], version := "3.1" }

def epC1w : Generate.Endpoint := ⟨"/dcim/devices/", "get", vdC1w⟩

def actC1w : NbAction := ⟨"List devices", [], "/dcim/devices/", "get", true⟩

def resC1w : Generate.RunResult := ⟨[("get.dcim.devices", actC1w)], []⟩

def vdC2 : NbVerbData := { description := some "Create X", operationId := some "x_create" }

def specC2a : NbApiSpec := { paths := [("/x/", [("post", vdC2)])], version := "1.0" }

def specC2b : NbApiSpec := { paths := [("/x/", [("post", vdC2)])], version := "2.0" }

def resC2 : Generate.RunResult := ⟨[("post.x", ⟨"Create X", [], "/x/", "post", true⟩)], []⟩

def vdC3 : NbVerbData := { description := some "H", operationId := some "h_op" }

def specC3 : NbApiSpec := { paths := [("/x/", [("head", vdC3)])], version := "1.0" }

def epC3 : Generate.Endpoint := ⟨"/x/", "head", vdC3⟩

def resC3 : Generate.RunResult := ⟨[], [Generate.skipWarning "head.x"]⟩

def cfgC5 : NbConfig := ⟨false, "nb", "T", true⟩

def outC5 : RunOutcome :=
  ⟨[⟨"http://nb/api/x/", "post",
     [("Authorization", "Token T"), ("Accept", "application/json"),
      ("Content-Type", "application/json")], true, .jsonBody [("a", .vint 1)]⟩],
   [], false, .jsonVal (.vstr "ERR")⟩

def cfgC6 : NbConfig := ⟨true, "netbox.example.com", "TOK", false⟩

def reqC6 : NbRequest :=
  ⟨"https://netbox.example.com/api/dcim/sites/", "get",
   [("Authorization", "Token TOK"), ("Accept", "application/json"),
    ("Content-Type", "application/json")], false, .query [("q", .vstr "s")]⟩

def kwC7 : List (String × KwVal) :=
  [("id__in", .varr ["1", "2"]), ("tags", .varr ["a"]), ("x", .vnone), ("y", .vstr "v")]

def outC7 : List (String × KwVal) :=
  [("id__in", .vstr "1,2"), ("tags", .vstr "a"), ("y", .vstr "v")]

def cfgC8 : NbConfig := ⟨false, "nb", "T", true⟩

def outC8 : RunOutcome :=
  ⟨[⟨"http://nb/api/x/", "get",
     [("Authorization", "Token T"), ("Accept", "application/json"),
      ("Content-Type", "application/json")], true, .query [("q", .vstr "s")]⟩],
   [], true, .noneVal⟩

def defC9 : NbDefinition :=
  { title := some "Device", required := some ["name"],
    properties := [("name", { type := some "string", title := some "Name" })] }

def specC9 : NbApiSpec := { paths := [], definitions := [("Device", defC9)], version := "1.0" }

def opsC9 : List NbOpParam := [{ schemaRef := some "#/definitions/Device" }]

def psC9 : List NbParam := [⟨"name", some "string", "Name", false⟩]

def vdC10 : NbVerbData :=
  { description := some "L", operationId := some "dcim_devices_list",
    parameters := [⟨none, ⟨"device_id", some "string", "", false⟩⟩,
                   ⟨none, ⟨"id__in", some "number", "", false⟩⟩] }

def specC10 : NbApiSpec := { paths := [("/dcim/devices/", [("get", vdC10)])], version := "1.0" }

def actC10 : NbAction :=
  ⟨"L", [⟨"device_id", some "integer", "", false⟩,
         ⟨"id__in", some "array", "Array of IDs", false⟩],
   "/dcim/devices/", "get", true⟩

def resC10 : Generate.RunResult := ⟨[("get.dcim.devices", actC10)], []⟩

def pC10 : NbParam := ⟨"device_id", some "integer", "", false⟩

/-! ## Claim theorems -/

/-- C1 (counterexample): the claim "for every (path, verb) pair in `paths`
(excluding 'parameters') the generator emits one action-definition file" is
false: a document with one endpoint whose verb is `head` matches no
classification case, so the run records no action and writes no file while
the document has one endpoint. -/
theorem c1_counterexample :
    Generate.endpointCount specC1 = 1
    ∧ Generate.run specC1
      = .ok ⟨[], ["Unable to process endpoint head.x, no defined logic"]⟩
    ∧ (Generate.run specC1).map
        (fun r => writeNames (fileOps ["stale.yaml"] 0 specC1.version r.actions))
      = .ok [] := by
  refine ⟨by decide, by decide, by decide⟩

/-- C1 (amended): for every (path, verb) pair of the document (excluding the
pseudo-verb 'parameters') that the classification chain maps to an action
(neither deferred as a detail GET nor skipped with a warning), the generator
writes a file named after that pair's action name; pairs with the same
action name share one file, deferred detail GETs are merged into their list
action's file, and unmatched pairs produce no file of their own. -/
theorem c1_amended_recognized_pair_written (spec : NbApiSpec)
    (ep : Generate.Endpoint) (n : String) (a : NbAction)
    (res : Generate.RunResult) (listing : List String) (date : Nat)
    (hmem : ep ∈ Generate.endpointList spec)
    (hc : Generate.classifyEndpoint spec ep = .ok (.insertA n a))
    (hrun : Generate.run spec = .ok res) :
    (n ++ ".yaml") ∈ writeNames (fileOps listing date spec.version res.actions) := by
  rw [Generate.writeNames_fileOps]
  exact List.mem_map.mpr ⟨n, Generate.run_insert_mem_keys hmem hc hrun, rfl⟩

/-- C1 (witness): the amended claim applied to a one-endpoint document whose
single list GET is classified, producing the file `get.dcim.devices.yaml`. -/
theorem c1_amended_witness :
    ("get.dcim.devices" ++ ".yaml")
      ∈ writeNames (fileOps [] 0 specC1w.version resC1w.actions) :=
  c1_amended_recognized_pair_written specC1w epC1w "get.dcim.devices" actC1w resC1w
    [] 0 (by decide) (by decide) (by decide)

/-- C2 (counterexample): the claim that each file is "rendered from the
single template with exactly the fields action name, description, parameter
list, endpoint URI template, HTTP verb, and detail-route eligibility flag"
is false: two documents that produce identical actions (all six claimed
fields equal) but differ in `info.version` produce different file contents,
because the template is also supplied the spec version (and the generation
date). -/
theorem c2_counterexample :
    Generate.run specC2a = .ok resC2
    ∧ Generate.run specC2b = .ok resC2
    ∧ fileOps [] 0 specC2a.version resC2.actions
      ≠ fileOps [] 0 specC2b.version resC2.actions := by
  refine ⟨by decide, by decide, by decide⟩

/-- C2 (amended): on every run, every pre-existing '.yaml' file of the
actions directory is deleted before any output file is written, exactly one
file named '<action_name>.yaml' is written per classified action, and each
is rendered from the single template with exactly the fields generation
date, spec version, action name, description, parameter list, endpoint URI
template, HTTP verb, and detail-route eligibility flag. -/
theorem c2_amended_delete_then_render (spec : NbApiSpec) (res : Generate.RunResult)
    (listing : List String) (date : Nat)
    (hrun : Generate.run spec = .ok res) :
    let ops := fileOps listing date spec.version res.actions
    ops = ops.filter FsOp.isDeleteF ++ ops.filter FsOp.isWriteF
    ∧ deleteNames ops = listing.filter (fun f => pyEndsWith f ".yaml")
    ∧ writeNames ops = (keysOf res.actions).map (fun k => k ++ ".yaml")
    ∧ (writeNames ops).Nodup
    ∧ (∀ f c, FsOp.writeF f c ∈ ops →
        ∃ k a, (k, a) ∈ res.actions ∧ f = k ++ ".yaml"
          ∧ c = renderTemplate ⟨date, spec.version, k, a.parameters, a.description,
              a.endpoint_uri, a.verb, a.get_detail_route_eligible⟩) := by
  refine ⟨Generate.fileOps_deletes_before_writes listing date spec.version res.actions,
          Generate.deleteNames_fileOps listing date spec.version res.actions,
          Generate.writeNames_fileOps listing date spec.version res.actions,
          ?_, ?_⟩
  · rw [Generate.writeNames_fileOps]
    exact (Generate.run_nodup hrun).map Generate.append_yaml_inj
  · intro f c hmem
    exact Generate.mem_write_fileOps hmem

/-- C2 (witness): the amended claim applied to a concrete run over a
directory containing one stale '.yaml' file and one unrelated file. -/
theorem c2_amended_witness :
    let ops := fileOps ["stale.yaml", "README.md"] 5 specC2a.version resC2.actions
    ops = ops.filter FsOp.isDeleteF ++ ops.filter FsOp.isWriteF
    ∧ deleteNames ops
      = ["stale.yaml", "README.md"].filter (fun f => pyEndsWith f ".yaml")
    ∧ writeNames ops = (keysOf resC2.actions).map (fun k => k ++ ".yaml")
    ∧ (writeNames ops).Nodup
    ∧ (∀ f c, FsOp.writeF f c ∈ ops →
        ∃ k a, (k, a) ∈ resC2.actions ∧ f = k ++ ".yaml"
          ∧ c = renderTemplate ⟨5, specC2a.version, k, a.parameters, a.description,
              a.endpoint_uri, a.verb, a.get_detail_route_eligible⟩) :=
  c2_amended_delete_then_render specC2a resC2 ["stale.yaml", "README.md"] 5 (by decide)

/-- C3: an endpoint whose shape matches no classification case contributes
the "no defined logic" warning and nothing else — the actions dict of a run
equals the actions dict of the run over the non-skipped endpoints alone —
and a deferred detail GET whose list action is absent contributes the
"unable to find list action" warning and leaves the keys of the actions
dict unchanged; processing always continues past both. -/
theorem c3_skip_warning_and_continue :
    (∀ (spec : NbApiSpec) (ep : Generate.Endpoint) (nm : String)
        (res : Generate.RunResult),
      ep ∈ Generate.endpointList spec →
      Generate.classifyEndpoint spec ep = .ok (.skipA nm) →
      Generate.run spec = .ok res →
      Generate.skipWarning nm ∈ res.warnings)
    ∧ (∀ spec : NbApiSpec,
        (Generate.run spec).map Generate.RunResult.actions =
          (Generate.runOn spec ((Generate.endpointList spec).filter
            (fun ep => !Generate.isSkipC (Generate.classifyEndpoint spec ep)))).map
            Generate.RunResult.actions)
    ∧ (∀ (acts : List (String × NbAction)) (ws ds : List String) (n : String),
        n ∈ ds → n ∉ keysOf acts →
          Generate.missingListWarning n ∈ (Generate.runDeferred acts ws ds).2
          ∧ keysOf (Generate.runDeferred acts ws ds).1 = keysOf acts) :=
  ⟨fun _ _ _ _ hm hc hr => Generate.run_skip_warning hm hc hr,
   Generate.run_actions_eq_filter_skip,
   fun acts ws ds _ hn hno =>
     ⟨Generate.runDeferred_missing hn hno, Generate.runDeferred_keysOf acts ws ds⟩⟩

/-- C3 (witness): a `head` endpoint is skipped with its warning, and a
deferred detail GET with no list action yields its warning without creating
an action. -/
theorem c3_witness :
    Generate.skipWarning "head.x" ∈ resC3.warnings
    ∧ (Generate.missingListWarning "get.y" ∈ (Generate.runDeferred [] [] ["get.y"]).2
       ∧ keysOf (Generate.runDeferred [] [] ["get.y"]).1
         = keysOf ([] : List (String × NbAction))) :=
  ⟨c3_skip_warning_and_continue.1 specC3 epC3 "head.x" resC3
      (by decide) (by decide) (by decide),
   c3_skip_warning_and_continue.2.2 [] [] ["get.y"] "get.y" (by decide) (by decide)⟩

/-- C4: every failure to obtain the OpenAPI document — whether fetched over
HTTP (caught: "Failed to get the API spec!" is printed) or read from disk
with `--file` (uncaught: the interpreter prints the exception) — aborts the
generator with exit status 1 and no action file is written. -/
theorem c4_fetch_failure_aborts (file_ : Bool) (e : String)
    (listing : List String) (date : Nat) :
    mainModel file_ (.failed e) listing date
      = .error ((if file_ then e else "Failed to get the API spec! " ++ e), 1)
    ∧ writesOf (mainModel file_ (.failed e) listing date) = [] := by
  refine ⟨?_, ?_⟩ <;> cases file_ <;> rfl

/-- C5: when the HTTP response has a non-success status, the wrapper issued
exactly one request, returns status `False`, and the result
`{"raw": ...}` carries the parsed response body. -/
theorem c5_http_failure_single_request (config : NbConfig) (uri verb : String)
    (elig : Bool) (kwargs : List (String × KwVal)) (resp : NbResponse)
    (out : RunOutcome) (hok : resp.ok = false)
    (h : NetboxHTTPAction.run config uri verb elig kwargs resp = .ok out) :
    out.requests.length = 1 ∧ out.status = false ∧ out.raw = .jsonVal resp.body := by
  unfold NetboxHTTPAction.run at h
  rcases NetboxHTTPAction.runCore_fail hok h with ⟨req, _, rfl⟩
  exact ⟨rfl, rfl, rfl⟩

/-- C5 (witness): a failing POST invocation at concrete inputs. -/
theorem c5_witness :
    outC5.requests.length = 1 ∧ outC5.status = false
      ∧ outC5.raw = .jsonVal (NbResponse.mk false (.vstr "ERR")).body :=
  c5_http_failure_single_request cfgC5 "/x/" "post" false [("a", .vint 1)]
    ⟨false, .vstr "ERR"⟩ outC5 (by decide) (by decide)

/-- C6: every request built by `make_request` has URL
scheme ++ hostname ++ "/api" ++ endpoint URI, with the scheme chosen by
`use_https`, and carries the `Authorization: Token <api_token>` header. -/
theorem c6_request_url_and_auth_header (config : NbConfig) (uri verb : String)
    (kwargs : List (String × KwVal)) (req : NbRequest)
    (h : NetboxBaseAction.make_request config uri verb kwargs = .ok req) :
    req.url = (if config.use_https then "https://" else "http://")
        ++ config.hostname ++ "/api" ++ uri
    ∧ ("Authorization", "Token " ++ config.api_token) ∈ req.headers := by
  rcases NetboxBaseAction.make_request_split h with ⟨kw, _, hurl, hhead, _⟩
  refine ⟨hurl, ?_⟩
  rw [hhead]
  exact List.mem_cons_self _ _

/-- C6 (witness): a concrete HTTPS GET request. -/
theorem c6_witness :
    reqC6.url = (if cfgC6.use_https then "https://" else "http://")
        ++ cfgC6.hostname ++ "/api" ++ "/dcim/sites/"
    ∧ ("Authorization", "Token " ++ cfgC6.api_token) ∈ reqC6.headers :=
  c6_request_url_and_auth_header cfgC6 "/dcim/sites/" "get" [("q", .vstr "s")]
    reqC6 (by decide)

/-- Value is not Python `None` exactly when `isNone` is false. -/
theorem KwVal_isNone_false {v : KwVal} (h : v ≠ .vnone) : v.isNone = false := by
  cases v with
  | vnone => exact absurd rfl h
  | vbool b => rfl
  | vint n => rfl
  | vstr s => rfl
  | varr xs => rfl

/-- Lookup in the None-stripped dict keeps a non-None binding (keys Nodup). -/
theorem alookup_filter_keep {k : String} {l : List (String × KwVal)} {v : KwVal}
    (hnd : (keysOf l).Nodup) (hv : alookup k l = some v) (hn : v.isNone = false) :
    alookup k (l.filter (fun p => !p.2.isNone)) = some v := by
  rw [alookup_filterNone_of_nodup hnd, hv]
  simp [hn]

/-- Lookup in the None-stripped dict drops a None binding (keys Nodup). -/
theorem alookup_filter_drop {k : String} {l : List (String × KwVal)}
    (hnd : (keysOf l).Nodup) (hv : alookup k l = some .vnone) :
    alookup k (l.filter (fun p => !p.2.isNone)) = none := by
  rw [alookup_filterNone_of_nodup hnd, hv]
  rfl

/-- C7: `make_request` applies exactly these transformations to the keyword
arguments: a non-empty `id__in` array and a non-empty `tags` array are each
replaced by the comma-joined string of their elements; for every verb other
than `get`, arguments bound to `None` are removed; every other argument is
passed through unchanged, and no argument is invented. -/
theorem c7_parameter_transformations (verb : String)
    (kwargs out : List (String × KwVal)) (hnd : (keysOf kwargs).Nodup)
    (h : NetboxBaseAction.transformKwargs verb kwargs = .ok out) :
    (∀ xs : List String, alookup "id__in" kwargs = some (.varr xs) → xs ≠ [] →
        alookup "id__in" out = some (.vstr (pyJoin "," xs)))
    ∧ (∀ xs : List String, alookup "tags" kwargs = some (.varr xs) → xs ≠ [] →
        alookup "tags" out = some (.vstr (pyJoin "," xs)))
    ∧ (verb ≠ "get" → ∀ k, alookup k kwargs = some .vnone → alookup k out = none)
    ∧ (∀ k v, k ≠ "id__in" → k ≠ "tags" → alookup k kwargs = some v →
        (verb = "get" ∨ v ≠ .vnone) → alookup k out = some v)
    ∧ (∀ k, alookup k kwargs = none → alookup k out = none) := by
  rcases NetboxBaseAction.transformKwargs_split h with ⟨k1, k2, h1, h2, rfl⟩
  have hk1 : keysOf k1 = keysOf kwargs := NetboxBaseAction.applyJoin_keysOf h1
  have hk2 : keysOf k2 = keysOf k1 := NetboxBaseAction.applyJoin_keysOf h2
  have hnd2 : (keysOf k2).Nodup := by
    rw [hk2, hk1]
    exact hnd
  have hj2 : ∀ xs : List String, alookup "id__in" kwargs = some (.varr xs) → xs ≠ [] →
      alookup "id__in" k2 = some (.vstr (pyJoin "," xs)) := by
    intro xs hx hne
    rw [NetboxBaseAction.applyJoin_ne h2 (by decide)]
    exact NetboxBaseAction.applyJoin_varr h1 hx hne
  have ht2 : ∀ xs : List String, alookup "tags" kwargs = some (.varr xs) → xs ≠ [] →
      alookup "tags" k2 = some (.vstr (pyJoin "," xs)) := by
    intro xs hx hne
    refine NetboxBaseAction.applyJoin_varr h2 ?_ hne
    rw [NetboxBaseAction.applyJoin_ne h1 (by decide)]
    exact hx
  refine ⟨?_, ?_, ?_, ?_, ?_⟩
  · intro xs hx hne
    by_cases hg : verb = "get"
    · rw [if_pos hg]
      exact hj2 xs hx hne
    · rw [if_neg hg]
      exact alookup_filter_keep hnd2 (hj2 xs hx hne) rfl
  · intro xs hx hne
    by_cases hg : verb = "get"
    · rw [if_pos hg]
      exact ht2 xs hx hne
    · rw [if_neg hg]
      exact alookup_filter_keep hnd2 (ht2 xs hx hne) rfl
  · intro hg k hv
    rw [if_neg hg]
    have hv1 : alookup k k1 = some .vnone := NetboxBaseAction.applyJoin_none h1 hv
    have hv2 : alookup k k2 = some .vnone := NetboxBaseAction.applyJoin_none h2 hv1
    exact alookup_filter_drop hnd2 hv2
  · intro k v hki hkt hv hor
    have hv2 : alookup k k2 = some v := by
      rw [NetboxBaseAction.applyJoin_ne h2 hkt, NetboxBaseAction.applyJoin_ne h1 hki]
      exact hv
    by_cases hg : verb = "get"
    · rw [if_pos hg]
      exact hv2
    · rw [if_neg hg]
      rcases hor with hor | hor
      · exact absurd hor hg
      · exact alookup_filter_keep hnd2 hv2 (KwVal_isNone_false hor)
  · intro k hv
    have hv1 : alookup k k1 = none := NetboxBaseAction.applyJoin_absent h1 hv
    have hv2 : alookup k k2 = none := NetboxBaseAction.applyJoin_absent h2 hv1
    by_cases hg : verb = "get"
    · rw [if_pos hg]
      exact hv2
    · rw [if_neg hg]
      refine alookup_filter_eq_none_of_not_mem _ ?_
      rw [← alookup_eq_none_iff]
      exact hv2

/-- C7 (witness): the transformations at a concrete POST kwargs dict:
`id__in` joined, a `None`-valued argument dropped, a plain argument kept. -/
theorem c7_witness :
    alookup "id__in" outC7 = some (.vstr (pyJoin "," ["1", "2"]))
    ∧ alookup "x" outC7 = none
    ∧ alookup "y" outC7 = some (.vstr "v") :=
  ⟨(c7_parameter_transformations "post" kwC7 outC7 (by decide) (by decide)).1
      ["1", "2"] (by decide) (by decide),
   (c7_parameter_transformations "post" kwC7 outC7 (by decide) (by decide)).2.2.1
      (by decide) "x" (by decide),
   (c7_parameter_transformations "post" kwC7 outC7 (by decide) (by decide)).2.2.2.1
      "y" (.vstr "v") (by decide) (by decide) (by decide) (Or.inr (by decide))⟩

/-- C8: a successful GET whose `save_in_key_store` argument is not the
literal `True` returns status `True` with result `{"raw": None}` — the
response body is not part of the returned result. -/
theorem c8_get_success_raw_none (config : NbConfig) (uri : String) (elig : Bool)
    (kwargs : List (String × KwVal)) (resp : NbResponse) (out : RunOutcome)
    (hok : resp.ok = true)
    (hsk : alookup "save_in_key_store" kwargs ≠ some (.vbool true))
    (h : NetboxHTTPAction.run config uri "get" elig kwargs resp = .ok out) :
    out.status = true ∧ out.raw = .noneVal := by
  unfold NetboxHTTPAction.run at h
  refine NetboxHTTPAction.runCore_get_success_no_keystore hok ?_ h
  rw [NetboxHTTPAction.alookup_detailAdjust_snd (by decide)]
  exact hsk

/-- C8 (witness): a concrete successful GET without keystore storage. -/
theorem c8_witness : outC8.status = true ∧ outC8.raw = .noneVal :=
  c8_get_success_raw_none cfgC8 "/x/" false [("q", .vstr "s")]
    ⟨true, .vstr "BODY"⟩ outC8 (by decide) (by decide) (by decide)

/-- C9: for a `patch` operation whose first parameter carries a schema
reference, every schema-derived parameter of the generated action has
`required = False`, even when the schema lists it as required. -/
theorem c9_patch_params_not_required (spec : NbApiSpec)
    (opParams : List NbOpParam) (ps : List NbParam)
    (h : Generate.schemaDerivedParams spec "patch" opParams = .ok ps) :
    ∀ p ∈ ps, p.required = false := fun p hp =>
  Generate.schemaDerivedParams_patch_required h p hp

/-- C9 (witness): the `name` property is listed as required by the schema,
yet the patch-derived parameter is not required. -/
theorem c9_witness : (⟨"name", some "string", "Name", false⟩ : NbParam).required = false :=
  c9_patch_params_not_required specC9 opsC9 psC9 (by decide)
    ⟨"name", some "string", "Name", false⟩ (by decide)

/-- C10: in every action of a completed generator run, no parameter has
type `number`, every parameter whose name ends in `_id` has type `integer`,
and parameters named `id__in` or `tags` have type `array` — for
schema-derived and list-endpoint query parameters alike. -/
theorem c10_parameter_type_invariant (spec : NbApiSpec) (res : Generate.RunResult)
    (n : String) (a : NbAction) (p : NbParam)
    (hrun : Generate.run spec = .ok res)
    (hmem : (n, a) ∈ res.actions) (hp : p ∈ a.parameters) : paramOK p :=
  Generate.run_actionsOK hrun n a hmem p hp

/-- C10 (witness): a list endpoint declaring `device_id` as string and
`id__in` as number still generates an integer `device_id` (shown here). -/
theorem c10_witness : paramOK pC10 :=
  c10_parameter_type_invariant specC10 resC10 "get.dcim.devices" actC10 pC10
    (by decide) (by decide) (by decide)
